import Mathlib

/-!
Classroom roll-call utility (`src/script.js`): shallow embedding.

The script keeps one global record `app` and registers browser callbacks
(`setInterval`, `setTimeout`, the `onend` handler of a speech utterance).
The embedding makes both explicit:

* `App` is the global record `app`;
* `Sys` is `app` together with the callbacks that are currently registered
  (`tasks`) and the texts handed to the presentation layer (display text,
  toasts, utterances, drawer flag);
* every JavaScript function becomes a function `Sys → Sys`; what a function
  reads from the page or from the environment while it runs (slider values,
  the text area, `Math.random()`, the clock, `confirm`) is the `Env` argument.

Persistence (`saveData`), DOM class manipulation, particles and the timer
read-out element are not part of the state and are left out.
-/

namespace RollCall

/-! ## Strings -/

/-- White space and line terminators removed by `String.prototype.trim`. -/
def isJsWhitespace (c : Char) : Bool :=
  c.toNat = 0x09 || c.toNat = 0x0A || c.toNat = 0x0B || c.toNat = 0x0C || c.toNat = 0x0D
  || c.toNat = 0x20 || c.toNat = 0xA0 || c.toNat = 0x1680
  || (0x2000 ≤ c.toNat && c.toNat ≤ 0x200A)
  || c.toNat = 0x2028 || c.toNat = 0x2029 || c.toNat = 0x202F || c.toNat = 0x205F
  || c.toNat = 0x3000 || c.toNat = 0xFEFF

/-- The characters of `line.trim()`. -/
def trimChars (cs : List Char) : List Char :=
  ((cs.dropWhile isJsWhitespace).reverse.dropWhile isJsWhitespace).reverse

/-- The method `line.trim()`. -/
def jsTrim (s : String) : String := ⟨trimChars s.data⟩

/-- The pieces of a character sequence cut at every occurrence of `sep`. -/
def splitChars (sep : Char) : List Char → List (List Char)
  | [] => [[]]
  | c :: cs =>
    if c = sep then [] :: splitChars sep cs
    else
      match splitChars sep cs with
      | [] => [[c]]
      | l :: ls => (c :: l) :: ls

/-- The call `input.split('\n')`. -/
def jsSplitLines (input : String) : List String :=
  (splitChars '\n' input.data).map String.mk

/-- One `Set.prototype.add`: a value already present keeps its place. -/
def setAdd {α : Type} [DecidableEq α] (acc : List α) (x : α) : List α :=
  if x ∈ acc then acc else acc ++ [x]

/-- The array `[...new Set(xs)]`: the members in insertion order. -/
def jsSetOf {α : Type} [DecidableEq α] (xs : List α) : List α :=
  xs.foldl setAdd []

/-- The pipeline of `saveStudents` applied to the lines of the text area:
`lines.map(line => line.trim()).filter(line => line)` followed by
`[...new Set(lines)]`. -/
def rosterOfLines (lines : List String) : List String :=
  jsSetOf ((lines.map jsTrim).filter (fun line => decide (line ≠ "")))

/-- The argument that `speak` receives for a possibly `undefined` array
element, written as text: `undefined` stands for the missing element. -/
def nameText : Option String → String
  | some n => n
  | none => "undefined"

/-- The call `names.join('、')`; an `undefined` element is joined as the empty text. -/
def joinNames (names : List (Option String)) : String :=
  "、".intercalate (names.map (fun n => n.getD ""))

/-! ## Random numbers -/

/-- A value returned by `Math.random()`: a double in `[0, 1)`, that is
`num / 2 ^ exp` with a significand `num` below `2 ^ 53` and an exponent
`53 ≤ exp ≤ 1074`. Every double in `[0, 1)`, zero and the subnormal ones
included, has this form, and every such fraction is a double. -/
structure Rand01 where
  num : Nat
  exp : Nat
  num_lt : num < 2 ^ 53
  exp_ge : 53 ≤ exp
  exp_le : exp ≤ 1074

/-- The number of low bits of `a` that a significand of 53 bits cannot hold:
`a` is halved until it is below `2 ^ 53`; `fuel` bounds the number of halvings. -/
def excessBits : Nat → Nat → Nat
  | 0, _ => 0
  | fuel + 1, a => if a < 2 ^ 53 then 0 else excessBits fuel (a / 2) + 1

/-- The rounding of a double multiplication, on the numerator: the value with
a significand of at most 53 bits that is nearest to `a`, the tie going to the
even significand (the default rounding of IEEE 754). The binary exponent is not
touched, so `roundToDouble a / 2 ^ e` is the double nearest to `a / 2 ^ e`. -/
def roundToDouble (a : Nat) : Nat :=
  let s := excessBits a a
  let q := a / 2 ^ s
  let rest := a % 2 ^ s
  if 2 ^ s < 2 * rest ∨ (2 * rest = 2 ^ s ∧ q % 2 = 1) then (q + 1) * 2 ^ s else q * 2 ^ s

/-- The index `Math.floor(Math.random() * n)`: the length `n` of an array is
below `2 ^ 32` and exact as a double, the product `num * n / 2 ^ exp` is rounded
to the nearest double, and `Math.floor` takes its integer part. -/
def randomIndex (r : Rand01) (n : Nat) : Nat := roundToDouble (r.num * n) / 2 ^ r.exp

/-- The index `Math.floor(Math.random() * n)` for a positive `n` as an index
below `n`: the rounded product stays below `n`, because the random value is at
most `1 - 2 ^ (-53)` and the rounding moves the product by at most the
fraction `2 ^ (-53)` of itself. -/
def drawIndex (r : Rand01) (n : Nat) (h : 0 < n) : Fin n :=
  ⟨randomIndex r n, by
    have hbits : ∀ fuel a : Nat, a < 2 ^ 53 * 2 ^ fuel →
        excessBits fuel a = 0 ∨ 2 ^ 52 * 2 ^ excessBits fuel a ≤ a := by
      intro fuel
      induction fuel with
      | zero => intro a _; exact Or.inl rfl
      | succ fuel ih =>
        intro a ha
        by_cases hsmall : a < 2 ^ 53
        · left
          simp only [excessBits, if_pos hsmall]
        · right
          have hhalf : a / 2 < 2 ^ 53 * 2 ^ fuel := by
            have hp : 2 ^ (fuel + 1) = 2 ^ fuel * 2 := Nat.pow_succ 2 fuel
            rw [hp] at ha; omega
          have hunfold : excessBits (fuel + 1) a = excessBits fuel (a / 2) + 1 := by
            simp only [excessBits, if_neg hsmall]
          have hp : 2 ^ (excessBits fuel (a / 2) + 1) = 2 ^ excessBits fuel (a / 2) * 2 :=
            Nat.pow_succ 2 _
          rw [hunfold, hp]
          rcases ih (a / 2) hhalf with h0 | hle
          · rw [h0]; omega
          · omega
    have hround : ∀ a : Nat, 2 * roundToDouble a ≤ 2 * a + 2 ^ excessBits a a := by
      intro a
      have hsplit := Nat.div_add_mod a (2 ^ excessBits a a)
      have hmul : 2 ^ excessBits a a * (a / 2 ^ excessBits a a)
          = a / 2 ^ excessBits a a * 2 ^ excessBits a a := Nat.mul_comm _ _
      simp only [roundToDouble]
      split
      · rename_i hup
        rw [Nat.add_mul, Nat.one_mul]
        rcases hup with hgt | ⟨heq, _⟩ <;> omega
      · omega
    have hexact : ∀ a : Nat, excessBits a a = 0 → roundToDouble a = a := by
      intro a h0
      simp [roundToDouble, h0, Nat.mod_one]
    have hnum : r.num * n ≤ (2 ^ 53 - 1) * n :=
      Nat.mul_le_mul_right n (by have := r.num_lt; omega)
    have hpow : 2 ^ 53 * n ≤ 2 ^ r.exp * n :=
      Nat.mul_le_mul_right n (Nat.pow_le_pow_right (by decide) r.exp_ge)
    have hlt : roundToDouble (r.num * n) < 2 ^ 53 * n := by
      have hfuel : r.num * n < 2 ^ 53 * 2 ^ (r.num * n) :=
        lt_of_lt_of_le (Nat.lt_two_pow _) (Nat.le_mul_of_pos_left _ (by positivity))
      rcases hbits (r.num * n) (r.num * n) hfuel with h0 | hle
      · rw [hexact _ h0]
        have := r.num_lt
        exact Nat.mul_lt_mul_of_pos_right this h
      · have := hround (r.num * n)
        omega
    exact Nat.div_lt_of_lt_mul (lt_of_lt_of_le hlt hpow)⟩

/-! ## The global record -/

/-- The values of `app.currentMode` used by the page. -/
inductive Mode
  | sequence | random | quick | question | timer
  deriving DecidableEq, Repr

/-- A record of `app.history`; `name` is `none` when `undefined` was recorded. -/
structure HistoryRecord where
  name : Option String
  mode : String
  time : String
  timestamp : Nat
  deriving DecidableEq, Repr

/-- The two clock readings taken by `addHistory`. -/
structure Clock where
  time : String
  timestamp : Nat
  deriving DecidableEq, Repr

/-- The record `app`. `currentIndex` is `none` when the number is `NaN`;
`intervalId` is never assigned by the script and is left out, as are the
speech rate and the `voiceMode` settings, which no operation below reads. -/
structure App where
  students : List String
  currentIndex : Option Nat
  history : List HistoryRecord
  weights : List (String × Nat)
  isRunning : Bool
  currentMode : Mode
  timerId : Option Nat
  remainingTime : Int
  speechEnabled : Bool
  deriving DecidableEq, Repr

/-- The completion handlers passed to `speak`. -/
inductive SpeechCb
  /-- The handler of `startSequence.next`, closed over `interval`. -/
  | seqAdvance (interval : Nat)
  /-- The handler of `startRandom` and `askQuestion`. -/
  | cycleDone
  deriving DecidableEq, Repr

/-- A registered callback that has not run yet. -/
inductive Task
  /-- The `setInterval` of `startRandom` or `askQuestion` with its `flashCount`. -/
  | flash (label : String) (flashCount : Nat)
  /-- The `setInterval` of `startQuickDraw` with its `count` and `flashCount`. -/
  | flashQuick (count : Nat) (flashCount : Nat)
  /-- The `onend` handler of an utterance that has been queued. -/
  | speechEnd (cb : SpeechCb)
  /-- The call `setTimeout(next, interval * 1000)` of sequence mode. -/
  | seqNext (interval : Nat)
  /-- The call `setTimeout(..., index * 800)` of the quick draw for one name. -/
  | quickRecord (name : String) (index : Nat) (len : Nat)
  /-- The call `setTimeout(..., 1000)` that ends the quick draw. -/
  | quickFinish
  /-- The call `setTimeout(updateTimer, 1000)` with the handle it returned. -/
  | timerTick (id : Nat)
  deriving DecidableEq, Repr

/-- The record `app`, the registered callbacks and the presentation outputs.
`nextId` is the next timer handle the browser hands out (handles are positive).
`announced` lists the texts of all calls of `speak`, `spoken` the texts that
were handed to the speech engine. -/
structure Sys where
  app : App
  tasks : List Task
  nextId : Nat
  display : String
  toasts : List String
  spoken : List String
  drawerOpen : Bool
  announced : List String
  deriving DecidableEq, Repr

/-- The value of the `timerSelect` element and, for `custom`, the parsed input
(`none` is `NaN`). -/
inductive TimerSelect
  | preset (seconds : Int)
  | custom (parsed : Option Int)

/-- What one call reads from the page and from the environment. -/
structure Env where
  /-- The value of the `studentInput` text area. -/
  studentInput : String
  /-- The parsed value of `intervalSlider`. -/
  interval : Nat
  /-- The parsed value of `quickCountSlider`. -/
  quickCount : Nat
  timerSelect : TimerSelect
  /-- The successive results of `Math.random()` during the call. -/
  rnd : Nat → Rand01
  clock : Clock
  /-- Whether `speechSynthesis.speak` throws during the call. -/
  speechThrows : Bool
  /-- The answer given to `confirm`. -/
  confirmed : Bool

/-- The record `app` as the script declares it, before anything is loaded. -/
def App.initial : App :=
  { students := [], currentIndex := some 0, history := [], weights := [],
    isRunning := false, currentMode := Mode.question, timerId := none,
    remainingTime := 0, speechEnabled := true }

/-- The page after `DOMContentLoaded` with empty local storage. -/
def Sys.initial : Sys :=
  { app := App.initial, tasks := [], nextId := 1, display := "准备开始",
    toasts := [], spoken := [], drawerOpen := false, announced := [] }

/-! ## Presentation -/

/-- The function `showToast`: the message is surfaced to the user. -/
def showToast (message : String) (s : Sys) : Sys :=
  { s with toasts := s.toasts ++ [message] }

/-- The function `toggleDrawer`. -/
def toggleDrawer (s : Sys) : Sys :=
  { s with drawerOpen := !s.drawerOpen }

/-- The function `updateDisplay`: `text || '准备开始'` becomes the display text. -/
def updateDisplay (text : Option String) (s : Sys) : Sys :=
  { s with display :=
      match text with
      | some t => if t = "" then "准备开始" else t
      | none => "准备开始" }

/-- The function `speak`. The call is noted in `announced`. Nothing else
happens when speech is disabled; when the engine throws, a toast is shown;
otherwise the utterance is queued and its `onend` handler, if one was given,
is registered. -/
def speak (env : Env) (text : String) (onEnd : Option SpeechCb) (s : Sys) : Sys :=
  let s := { s with announced := s.announced ++ [text] }
  if !s.app.speechEnabled then s
  else if env.speechThrows then showToast "语音播放失败，请检查浏览器设置" s
  else
    { s with
      spoken := s.spoken ++ [text]
      tasks :=
        match onEnd with
        | some cb => s.tasks ++ [Task.speechEnd cb]
        | none => s.tasks }

/-- The function `toggleVoice`. -/
def toggleVoice (s : Sys) : Sys :=
  { s with app := { s.app with speechEnabled := !s.app.speechEnabled } }

/-! ## Roster and history -/

/-- The statement `app.weights[name] = 1` on the object `app.weights`. -/
def setWeightOne (name : String) : List (String × Nat) → List (String × Nat)
  | [] => [(name, 1)]
  | (k, v) :: rest => if k = name then (k, 1) :: rest else (k, v) :: setWeightOne name rest

/-- The property names that every plain object inherits from
`Object.prototype`; `app.weights[name]` is truthy for them even when the object
has no weight of its own under that name. -/
def objectPrototypeKeys : List String :=
  ["constructor", "__defineGetter__", "__defineSetter__", "hasOwnProperty",
   "__lookupGetter__", "__lookupSetter__", "isPrototypeOf", "propertyIsEnumerable",
   "toString", "valueOf", "__proto__", "toLocaleString"]

/-- The body of the `forEach` of `saveStudents`:
`if (!app.weights[name]) app.weights[name] = 1`. The list holds the own
properties of `app.weights`; a name without one is looked up on the prototype. -/
def initWeight (weights : List (String × Nat)) (name : String) : List (String × Nat) :=
  match weights.lookup name with
  | some (_ + 1) => weights
  | some 0 => setWeightOne name weights
  | none => if name ∈ objectPrototypeKeys then weights else setWeightOne name weights

/-- The function `saveStudents`. -/
def saveStudents (env : Env) (s : Sys) : Sys :=
  let students := rosterOfLines (jsSplitLines env.studentInput)
  let weights := students.foldl initWeight s.app.weights
  showToast "名单已保存"
    { s with app := { s.app with students := students, weights := weights } }

/-- The function `clearStudents`. -/
def clearStudents (s : Sys) : Sys :=
  showToast "名单已清空" { s with app := { s.app with students := [], weights := [] } }

/-- The function `addHistory`: `unshift`, then `slice(0, 100)` when the log
has grown beyond 100 records. -/
def addHistory (clock : Clock) (name : Option String) (mode : String) (s : Sys) : Sys :=
  let record : HistoryRecord :=
    { name := name, mode := mode, time := clock.time, timestamp := clock.timestamp }
  let history := record :: s.app.history
  let history := if history.length > 100 then history.take 100 else history
  { s with app := { s.app with history := history } }

/-- The function `clearHistory`. -/
def clearHistory (s : Sys) : Sys :=
  showToast "历史已清空" { s with app := { s.app with history := [] } }

/-! ## Mode switch and sequence mode -/

/-- The function `switchMode`. -/
def switchMode (mode : Mode) (s : Sys) : Sys :=
  let s := { s with app := { s.app with currentMode := mode } }
  if !s.app.isRunning then updateDisplay (some "准备开始") s else s

/-- The remainder `a % n` on numbers that may be `NaN`. -/
def jsMod (a : Option Nat) (n : Nat) : Option Nat :=
  match a with
  | some x => if n = 0 then none else some (x % n)
  | none => none

/-- The element `app.students[app.currentIndex]`, `none` when `undefined`. -/
def studentAt (students : List String) (index : Option Nat) : Option String :=
  match index with
  | some i => students[i]?
  | none => none

/-- The closure `next` of `startSequence`. -/
def seqNext (env : Env) (interval : Nat) (s : Sys) : Sys :=
  if !s.app.isRunning then s
  else
    let name := studentAt s.app.students s.app.currentIndex
    let s := updateDisplay name s
    let s := addHistory env.clock name "顺序点名" s
    speak env (nameText name) (some (SpeechCb.seqAdvance interval)) s

/-- The function `startSequence`. -/
def startSequence (env : Env) (s : Sys) : Sys :=
  if s.app.students.length = 0 then toggleDrawer (showToast "请先添加学生名单" s)
  else seqNext env env.interval { s with app := { s.app with isRunning := true } }

/-- The function `pauseSequence`. -/
def pauseSequence (s : Sys) : Sys :=
  updateDisplay (some "已暂停") { s with app := { s.app with isRunning := false } }

/-- The speech-completion handler of `startSequence.next`. -/
def seqAdvance (interval : Nat) (s : Sys) : Sys :=
  let s := { s with app := { s.app with
    currentIndex := jsMod (s.app.currentIndex.map (· + 1)) s.app.students.length } }
  if s.app.isRunning then { s with tasks := s.tasks ++ [Task.seqNext interval] } else s

/-- The function `nextStudent`. -/
def nextStudent (s : Sys) : Sys :=
  if s.app.students.length = 0 then s
  else
    let s := { s with app := { s.app with
      currentIndex := jsMod (s.app.currentIndex.map (· + 1)) s.app.students.length } }
    updateDisplay (studentAt s.app.students s.app.currentIndex) s

/-- The function `prevStudent`; `currentIndex - 1 + length` is computed as
`currentIndex + length - 1`, the length being positive here. -/
def prevStudent (s : Sys) : Sys :=
  if s.app.students.length = 0 then s
  else
    let s := { s with app := { s.app with
      currentIndex :=
        jsMod (s.app.currentIndex.map (· + s.app.students.length - 1)) s.app.students.length } }
    updateDisplay (studentAt s.app.students s.app.currentIndex) s

/-! ## Random call, question and quick draw -/

/-- The guards and the flag assignment shared verbatim by `startRandom` and
`askQuestion`; `label` is the history label of the cycle that is started. -/
def startFlash (label : String) (s : Sys) : Sys :=
  if s.app.students.length = 0 then toggleDrawer (showToast "请先添加学生名单" s)
  else if s.app.isRunning then s
  else
    { s with
      app := { s.app with isRunning := true }
      tasks := s.tasks ++ [Task.flash label 0] }

/-- The function `startRandom`. -/
def startRandom (s : Sys) : Sys := startFlash "随机点名" s

/-- The function `askQuestion`. -/
def askQuestion (s : Sys) : Sys := startFlash "上课提问" s

/-- The final draw `app.students[Math.floor(Math.random() * app.students.length)]`
of `startRandom` and `askQuestion`. -/
def singleDraw (r : Rand01) (students : List String) : Option String :=
  students[randomIndex r students.length]?

/-- The number of flashes `maxFlashes`. -/
def maxFlashes : Nat := 20

/-- The interval callback of `startRandom` and `askQuestion`, run with the
value `flashCount` of its closure. The first random number picks the name that
is only displayed; on the last flash the interval is cleared and the second
random number picks the name that is recorded and announced. -/
def flashTick (env : Env) (label : String) (flashCount : Nat) (s : Sys) : Sys :=
  let s := updateDisplay (singleDraw (env.rnd 0) s.app.students) s
  let flashCount := flashCount + 1
  if flashCount ≥ maxFlashes then
    let selectedStudent := singleDraw (env.rnd 1) s.app.students
    let s := updateDisplay selectedStudent s
    let s := addHistory env.clock selectedStudent label s
    speak env (nameText selectedStudent) (some SpeechCb.cycleDone) s
  else
    { s with tasks := s.tasks ++ [Task.flash label flashCount] }

/-- The loop of `selectMultipleStudents`, with the loop variable `i` and the
number of iterations `count - i` that the bound `i < count` still allows. The
result is the pair `(selected, tempCandidates)` at loop exit. -/
def selectLoop {α : Type} (rnd : Nat → Rand01) :
    Nat → Nat → List α → List α → List α × List α
  | 0, _, tempCandidates, selected => (selected, tempCandidates)
  | left + 1, i, tempCandidates, selected =>
    if h : 0 < tempCandidates.length then
      let index := randomIndex (rnd i) tempCandidates.length
      have hlt : index < tempCandidates.length :=
        (drawIndex (rnd i) tempCandidates.length h).isLt
      selectLoop rnd left (i + 1) (tempCandidates.eraseIdx index)
        (selected ++ [tempCandidates.get ⟨index, hlt⟩])
    else (selected, tempCandidates)

/-- The function `selectMultipleStudents`. -/
def selectMultipleStudents {α : Type} (rnd : Nat → Rand01) (candidates : List α)
    (count : Nat) : List α :=
  (selectLoop rnd count 0 candidates []).1

/-- The function `startQuickDraw`. -/
def startQuickDraw (env : Env) (s : Sys) : Sys :=
  if s.app.students.length = 0 then toggleDrawer (showToast "请先添加学生名单" s)
  else if s.app.isRunning then s
  else
    let count := env.quickCount
    if s.app.students.length < count then
      showToast ("学生总数不足 " ++ toString count ++ " 人") s
    else
      { s with
        app := { s.app with isRunning := true }
        tasks := s.tasks ++ [Task.flashQuick count 0] }

/-- The `setTimeout` calls made by `selected.forEach` in `startQuickDraw`. -/
def quickRecordTasks (selected : List String) : List Task :=
  selected.enum.map (fun p => Task.quickRecord p.2 p.1 selected.length)

/-- The interval callback of `startQuickDraw`. The first `count` random numbers
pick the names that are only displayed; on the last flash the following ones
feed `selectMultipleStudents`. -/
def quickFlashTick (env : Env) (count : Nat) (flashCount : Nat) (s : Sys) : Sys :=
  let flashNames := (List.range count).map (fun i => singleDraw (env.rnd i) s.app.students)
  let s := updateDisplay (some (joinNames flashNames)) s
  let flashCount := flashCount + 1
  if flashCount ≥ maxFlashes then
    let selected := selectMultipleStudents (fun i => env.rnd (count + i)) s.app.students count
    let s := updateDisplay (some (joinNames (selected.map some))) s
    { s with tasks := s.tasks ++ quickRecordTasks selected }
  else
    { s with tasks := s.tasks ++ [Task.flashQuick count flashCount] }

/-- The timeout callback of `startQuickDraw` for the name at `index`. -/
def quickRecord (env : Env) (name : String) (index : Nat) (len : Nat) (s : Sys) : Sys :=
  let s := addHistory env.clock (some name) "快速连抽" s
  let s := speak env name none s
  if index = len - 1 then { s with tasks := s.tasks ++ [Task.quickFinish] } else s

/-- The innermost timeout callback of `startQuickDraw`. -/
def quickFinish (s : Sys) : Sys :=
  { s with app := { s.app with isRunning := false } }

/-- The speech-completion handler of `startRandom` and `askQuestion`. -/
def cycleDone (s : Sys) : Sys :=
  { s with app := { s.app with isRunning := false } }

/-! ## Timer -/

/-- The function `pauseTimer`; `clearTimeout` removes the callback whose
handle is stored in `app.timerId`. -/
def pauseTimer (s : Sys) : Sys :=
  let s := { s with app := { s.app with isRunning := false } }
  let s :=
    match s.app.timerId with
    | some id =>
      { s with
        tasks := s.tasks.filter (fun t => decide (t ≠ Task.timerTick id))
        app := { s.app with timerId := none } }
    | none => s
  updateDisplay (some "计时结束") s

/-- The closure `updateTimer` of `startTimer`. -/
def updateTimer (env : Env) (s : Sys) : Sys :=
  if !s.app.isRunning then s
  else
    let minutes := s.app.remainingTime / 60
    let s :=
      if s.app.remainingTime > 0 ∧ s.app.remainingTime % 60 = 0 ∧ s.app.speechEnabled = true then
        speak env (toString minutes ++ "分钟剩余") none s
      else s
    if s.app.remainingTime ≤ 0 then
      pauseTimer (speak env "时间到！" none s)
    else
      { s with
        app := { s.app with
          remainingTime := s.app.remainingTime - 1
          timerId := some s.nextId }
        tasks := s.tasks ++ [Task.timerTick s.nextId]
        nextId := s.nextId + 1 }

/-- The function `startTimer`. -/
def startTimer (env : Env) (s : Sys) : Sys :=
  let begin (duration : Int) : Sys :=
    updateTimer env { s with app := { s.app with remainingTime := duration, isRunning := true } }
  match env.timerSelect with
  | TimerSelect.preset duration => begin duration
  | TimerSelect.custom none => showToast "请输入有效的时间" s
  | TimerSelect.custom (some duration) =>
    if duration = 0 ∨ duration < 1 then showToast "请输入有效的时间" s
    else begin duration

/-! ## Dispatch -/

/-- The function `handleStartPause`. -/
def handleStartPause (env : Env) (s : Sys) : Sys :=
  match s.app.currentMode with
  | Mode.sequence => if s.app.isRunning then pauseSequence s else startSequence env s
  | Mode.random => if !s.app.isRunning then startRandom s else s
  | Mode.quick => if !s.app.isRunning then startQuickDraw env s else s
  | Mode.question => if !s.app.isRunning then askQuestion s else s
  | Mode.timer => if s.app.isRunning then pauseTimer s else startTimer env s

/-- The function `resetAll`. The handle `app.intervalId` is never set, so
only the timer callback can be cleared. -/
def resetAll (env : Env) (s : Sys) : Sys :=
  if env.confirmed then
    let s := { s with app := { s.app with
      students := [], history := [], weights := [], currentIndex := some 0, isRunning := false } }
    let s :=
      match s.app.timerId with
      | some id => { s with tasks := s.tasks.filter (fun t => decide (t ≠ Task.timerTick id)) }
      | none => s
    showToast "已重置全部数据" (updateDisplay (some "准备开始") s)
  else s

/-- The body of a speech-completion handler. -/
def runSpeechCb (cb : SpeechCb) (s : Sys) : Sys :=
  match cb with
  | SpeechCb.seqAdvance interval => seqAdvance interval s
  | SpeechCb.cycleDone => cycleDone s

/-- The body of a registered callback. -/
def runTask (env : Env) (t : Task) (s : Sys) : Sys :=
  match t with
  | Task.flash label flashCount => flashTick env label flashCount s
  | Task.flashQuick count flashCount => quickFlashTick env count flashCount s
  | Task.speechEnd cb => runSpeechCb cb s
  | Task.seqNext interval => seqNext env interval s
  | Task.quickRecord name index len => quickRecord env name index len s
  | Task.quickFinish => quickFinish s
  | Task.timerTick _ => updateTimer env s

/-- The browser runs the registered callback at position `i`: it leaves the
list of registered callbacks and its body runs. An interval callback that
does not clear itself is registered again by its body. -/
def fire (env : Env) (i : Nat) (s : Sys) : Sys :=
  match s.tasks[i]? with
  | some t => runTask env t { s with tasks := s.tasks.eraseIdx i }
  | none => s

/-- The user operations and the firing of a registered callback. -/
inductive Op
  | saveStudents | clearStudents | clearHistory | toggleVoice | resetAll
  | switchMode (mode : Mode)
  | startSequence | pauseSequence | nextStudent | prevStudent
  | startRandom | askQuestion | startQuickDraw
  | startTimer | pauseTimer
  | handleStartPause
  | fire (i : Nat)
  deriving DecidableEq, Repr

/-- One event of the page. -/
def step (env : Env) (op : Op) (s : Sys) : Sys :=
  match op with
  | Op.saveStudents => saveStudents env s
  | Op.clearStudents => clearStudents s
  | Op.clearHistory => clearHistory s
  | Op.toggleVoice => toggleVoice s
  | Op.resetAll => resetAll env s
  | Op.switchMode mode => switchMode mode s
  | Op.startSequence => startSequence env s
  | Op.pauseSequence => pauseSequence s
  | Op.nextStudent => nextStudent s
  | Op.prevStudent => prevStudent s
  | Op.startRandom => startRandom s
  | Op.askQuestion => askQuestion s
  | Op.startQuickDraw => startQuickDraw env s
  | Op.startTimer => startTimer env s
  | Op.pauseTimer => pauseTimer s
  | Op.handleStartPause => handleStartPause env s
  | Op.fire i => fire env i s

/-- A sequence of events, each with what it reads from its environment. -/
def run (events : List (Env × Op)) (s : Sys) : Sys :=
  events.foldl (fun acc e => step e.1 e.2 acc) s

/-- The callbacks at position `i` fire one after the other, once per
environment of the list. -/
def fireAll (envs : List Env) (i : Nat) (s : Sys) : Sys :=
  envs.foldl (fun acc env => fire env i acc) s

/-! ## Specification-side definitions -/

/-- The duplicates of a list removed, the first occurrence of each value kept. -/
def keepFirst {α : Type} [DecidableEq α] : List α → List α
  | [] => []
  | x :: xs => x :: (keepFirst xs).filter (fun y => decide (y ≠ x))

/-! ## Concrete scenarios -/

/-- The random value one half. -/
def half : Rand01 := ⟨2 ^ 52, 53, by decide, by decide, by decide⟩

/-- The double just below two thirds, `6004799503160661 / 2 ^ 53`: its product
with 3 is `2 - 2 ^ (-53)`, which no double holds. -/
def belowTwoThirds : Rand01 := ⟨6004799503160661, 53, by decide, by decide, by decide⟩

/-- An environment whose every random value is one half, with running clock
reading `timestamp` and the sliders at interval 1 and count 3. -/
def envAt (timestamp : Nat) : Env where
  studentInput := "Amy\nBo\nCy"
  interval := 1
  quickCount := 3
  timerSelect := TimerSelect.preset 30
  rnd := fun _ => half
  clock := { time := "", timestamp := timestamp }
  speechThrows := false
  confirmed := true

/-- The page after the roster `Amy`, `Bo`, `Cy` has been saved. -/
def classOfThree : Sys := saveStudents (envAt 0) Sys.initial

/-- The roster is saved, sequence mode is chosen and the start/pause key is
pressed three times before the first announcement has ended; then the two
announcements end. -/
def doubleSequenceTrace : List (Env × Op) :=
  [(envAt 0, Op.saveStudents), (envAt 0, Op.switchMode Mode.sequence),
   (envAt 1, Op.handleStartPause), (envAt 2, Op.handleStartPause), (envAt 3, Op.handleStartPause),
   (envAt 4, Op.fire 0), (envAt 5, Op.fire 0)]

/-- The roster is saved, a random call is started, and while its flashes run
the timer mode is chosen, the start/pause key is pressed, the random mode is
chosen again and the key is pressed once more. -/
def doubleFlashTrace : List (Env × Op) :=
  [(envAt 0, Op.saveStudents), (envAt 0, Op.switchMode Mode.random),
   (envAt 1, Op.handleStartPause), (envAt 2, Op.switchMode Mode.timer),
   (envAt 3, Op.handleStartPause), (envAt 4, Op.switchMode Mode.random),
   (envAt 5, Op.handleStartPause)]

/-- The delay in milliseconds given to `setInterval` or `setTimeout` when the
callback is registered; the end of an utterance has none. -/
def Task.delay : Task → Option Nat
  | Task.flash _ _ => some 100
  | Task.flashQuick _ _ => some 100
  | Task.speechEnd _ => none
  | Task.seqNext interval => some (interval * 1000)
  | Task.quickRecord _ index _ => some (index * 800)
  | Task.quickFinish => some 1000
  | Task.timerTick _ => some 1000

/-- The first `n` values of `app.remainingTime` that `updateTimer` finds when
the countdown is at `r`: `r`, `r - 1`, and so on. -/
def countdownValues : Nat → Nat → List Nat
  | _, 0 => []
  | r, n + 1 => r :: countdownValues (r - 1) n

/-- The minute announcements among the first `n` values of a countdown at
`r`: one for every positive value that is a multiple of 60. -/
def minuteTexts (r n : Nat) : List String :=
  ((countdownValues r n).filter (fun v => decide (0 < v ∧ v % 60 = 0))).map
    (fun v => toString (v / 60) ++ "分钟剩余")

/-- The names that the last flash of a quick draw selects: the random numbers
after the `count` display samples feed `selectMultipleStudents`. -/
def finalSelection (last : Env) (count : Nat) (students : List String) : List String :=
  selectMultipleStudents (fun i => last.rnd (count + i)) students count

/-- The records of a quick draw: one per drawn name, each with the clock of
the callback that writes it. -/
def quickRecords (names : List String) (envs : List Env) : List HistoryRecord :=
  List.zipWith
    (fun n e => (⟨some n, "快速连抽", e.clock.time, e.clock.timestamp⟩ : HistoryRecord))
    names envs

/-- The log after the records `rs` have been added to it one after the other. -/
def logAfter (rs : List HistoryRecord) (H : List HistoryRecord) : List HistoryRecord :=
  rs.foldl (fun h r => (r :: h).take 100) H

/-- The page after `startQuickDraw` and the 20 flashes of its interval, the
callback being the one registered last. -/
def afterQuickFlashes (env : Env) (ticks : List Env) (last : Env) (s : Sys) : Sys :=
  fireAll (ticks ++ [last]) s.tasks.length (startQuickDraw env s)

/-- The names of the log in the order in which they were recorded. -/
def recordedNames (s : Sys) : List (Option String) :=
  s.app.history.reverse.map (fun r => r.name)

/-- Sequence mode runs without interruption: after the start, three times the
announcement ends and the `next` timeout fires. -/
def plainSequenceTrace : List (Env × Op) :=
  [(envAt 0, Op.saveStudents), (envAt 0, Op.switchMode Mode.sequence),
   (envAt 1, Op.handleStartPause),
   (envAt 2, Op.fire 0), (envAt 3, Op.fire 0),
   (envAt 4, Op.fire 0), (envAt 5, Op.fire 0),
   (envAt 6, Op.fire 0), (envAt 7, Op.fire 0)]

/-- Sequence mode is paused twice, once during an announcement and once
during the wait for `next`, and resumed each time after the pending callback
has run. -/
def pausedSequenceTrace : List (Env × Op) :=
  [(envAt 0, Op.saveStudents), (envAt 0, Op.switchMode Mode.sequence),
   (envAt 1, Op.handleStartPause), (envAt 2, Op.handleStartPause), (envAt 3, Op.fire 0),
   (envAt 4, Op.handleStartPause), (envAt 5, Op.fire 0), (envAt 6, Op.handleStartPause),
   (envAt 7, Op.fire 0), (envAt 8, Op.handleStartPause)]

/-- Sequence mode is paused and resumed while the first announcement is
still being spoken; then both announcements end and both `next` timeouts fire. -/
def racedSequenceTrace : List (Env × Op) :=
  [(envAt 0, Op.saveStudents), (envAt 0, Op.switchMode Mode.sequence),
   (envAt 1, Op.handleStartPause), (envAt 2, Op.handleStartPause), (envAt 3, Op.handleStartPause),
   (envAt 4, Op.fire 0), (envAt 5, Op.fire 0), (envAt 6, Op.fire 0), (envAt 7, Op.fire 0)]

/-- Three names are saved, the cursor is moved to the third, a roster of one
name is saved and sequence mode is started. -/
def shorterRosterTrace : List (Env × Op) :=
  [(envAt 0, Op.saveStudents), (envAt 1, Op.nextStudent), (envAt 2, Op.nextStudent),
   ({ envAt 3 with studentInput := "Amy" }, Op.saveStudents), (envAt 4, Op.startSequence)]

/-- Sequence mode is started, the roster is cleared while the announcement is
spoken, the announcement ends and the roster is saved again. -/
def clearedRosterTrace : List (Env × Op) :=
  [(envAt 0, Op.saveStudents), (envAt 1, Op.startSequence), (envAt 2, Op.clearStudents),
   (envAt 3, Op.fire 0), (envAt 4, Op.saveStudents), (envAt 5, Op.nextStudent)]

/-! # Theorems -/

/-! ## Roster: trimming and the insertion-ordered set -/

theorem foldl_setAdd {α : Type} [DecidableEq α] (xs acc : List α) :
    xs.foldl setAdd acc = acc ++ (keepFirst xs).filter (fun y => decide (y ∉ acc)) := by
  induction xs generalizing acc with
  | nil => simp [keepFirst]
  | cons x xs ih =>
    rw [List.foldl_cons, ih]
    by_cases hx : x ∈ acc
    · have hfilter : (keepFirst (x :: xs)).filter (fun y => decide (y ∉ acc))
          = (keepFirst xs).filter (fun y => decide (y ∉ acc)) := by
        simp only [keepFirst, List.filter_cons, hx, not_true_eq_false, decide_False,
          Bool.false_eq_true, if_false, List.filter_filter]
        apply List.filter_congr
        intro y _
        by_cases hy : y ∈ acc
        · simp [hy]
        · have : y ≠ x := fun h => hy (h ▸ hx)
          simp [hy, this]
      simp only [setAdd, hx, if_true, hfilter]
    · have hfilter : (keepFirst (x :: xs)).filter (fun y => decide (y ∉ acc))
          = x :: (keepFirst xs).filter (fun y => decide (y ∉ acc ++ [x])) := by
        simp only [keepFirst, List.filter_cons, hx, not_false_eq_true, decide_True,
          if_true, List.filter_filter]
        congr 1
        apply List.filter_congr
        intro y _
        simp [Bool.and_comm]
      simp only [setAdd, hx, if_false, hfilter, List.append_assoc, List.singleton_append]

theorem jsSetOf_eq_keepFirst {α : Type} [DecidableEq α] (xs : List α) :
    jsSetOf xs = keepFirst xs := by
  simp [jsSetOf, foldl_setAdd]

theorem keepFirst_sublist {α : Type} [DecidableEq α] (xs : List α) :
    (keepFirst xs).Sublist xs := by
  induction xs with
  | nil => simp [keepFirst]
  | cons x xs ih =>
    simp only [keepFirst]
    exact ((List.filter_sublist _).trans ih).cons₂ x

theorem mem_keepFirst {α : Type} [DecidableEq α] (xs : List α) (a : α) :
    a ∈ keepFirst xs ↔ a ∈ xs := by
  induction xs with
  | nil => simp [keepFirst]
  | cons x xs ih =>
    simp only [keepFirst, List.mem_cons, List.mem_filter, ih]
    by_cases h : a = x <;> simp [h]

theorem keepFirst_nodup {α : Type} [DecidableEq α] (xs : List α) : (keepFirst xs).Nodup := by
  induction xs with
  | nil => simp [keepFirst]
  | cons x xs ih =>
    simp only [keepFirst, List.nodup_cons, List.mem_filter]
    exact ⟨by simp, ih.filter _⟩

theorem trimChars_getLast (cs : List Char) (c : Char)
    (h : (trimChars cs).getLast? = some c) : isJsWhitespace c = false := by
  unfold trimChars at h
  rw [List.getLast?_reverse] at h
  have := List.head?_dropWhile_not isJsWhitespace (cs.dropWhile isJsWhitespace).reverse
  rw [h] at this
  simpa using this

theorem trimChars_head (cs : List Char) (c : Char)
    (h : (trimChars cs).head? = some c) : isJsWhitespace c = false := by
  have hpre : trimChars cs <+: cs.dropWhile isJsWhitespace := by
    unfold trimChars
    have := List.dropWhile_suffix (l := (cs.dropWhile isJsWhitespace).reverse) isJsWhitespace
    rw [← List.reverse_prefix] at this
    simpa using this
  obtain ⟨t, ht⟩ := hpre
  have hne : trimChars cs ≠ [] := by
    intro h0
    rw [h0] at h
    simp at h
  have hhead : (cs.dropWhile isJsWhitespace).head? = some c := by
    rw [← ht]
    cases hcs : trimChars cs with
    | nil => exact absurd hcs hne
    | cons a l =>
      rw [hcs] at h
      simpa using h
  have := List.head?_dropWhile_not isJsWhitespace cs
  rw [hhead] at this
  simpa using this

/-- C1: `saveStudents` replaces the roster with the trimmed, non-empty input
lines, duplicates removed and the first occurrence of each name kept in input
order. The roster has no repeated name, keeps the order of the lines, has no
empty name and no name that starts or ends with white space, every name is a
trimmed input line, and the lines
`x`, `x`, ` y `, the empty line and `y` give the roster `x`, `y`. -/
theorem saveStudents_roster (L : List String) :
    rosterOfLines L = keepFirst ((L.map jsTrim).filter (fun line => decide (line ≠ ""))) ∧
    (rosterOfLines L).Nodup ∧
    (rosterOfLines L).Sublist ((L.map jsTrim).filter (fun line => decide (line ≠ ""))) ∧
    (∀ n ∈ rosterOfLines L,
      n ≠ "" ∧ (∃ line ∈ L, n = jsTrim line) ∧
      (∀ c, n.data.head? = some c → isJsWhitespace c = false) ∧
      (∀ c, n.data.getLast? = some c → isJsWhitespace c = false)) ∧
    (∀ line ∈ L, jsTrim line ≠ "" → jsTrim line ∈ rosterOfLines L) ∧
    (∀ (env : Env) (s : Sys),
      (saveStudents env s).app.students = rosterOfLines (jsSplitLines env.studentInput)) ∧
    jsSplitLines "x\nx\n y \n\ny" = ["x", "x", " y ", "", "y"] ∧
    rosterOfLines ["x", "x", " y ", "", "y"] = ["x", "y"] := by
  have hspec : rosterOfLines L
      = keepFirst ((L.map jsTrim).filter (fun line => decide (line ≠ ""))) := by
    simp only [rosterOfLines, jsSetOf_eq_keepFirst]
  refine ⟨hspec, ?_, ?_, ?_, ?_, ?_, by decide, by decide⟩
  · rw [hspec]
    exact keepFirst_nodup _
  · rw [hspec]
    exact keepFirst_sublist _
  · intro n hn
    rw [hspec, mem_keepFirst, List.mem_filter, List.mem_map] at hn
    obtain ⟨⟨line, hline, rfl⟩, hne⟩ := hn
    refine ⟨by simpa using hne, ⟨line, hline, rfl⟩, ?_, ?_⟩
    · intro c hc
      exact trimChars_head line.data c hc
    · intro c hc
      exact trimChars_getLast line.data c hc
  · intro line hline hne
    rw [hspec, mem_keepFirst, List.mem_filter, List.mem_map]
    exact ⟨⟨line, hline, rfl⟩, by simpa using hne⟩
  · intro env s
    rfl

/-- C1, at the lines ` a ` and `a`: the roster is the single name `a`, which
is not empty. -/
theorem saveStudents_roster_witness :
    rosterOfLines [" a ", "a"] = ["a"] ∧ "a" ≠ "" :=
  ⟨by decide, ((saveStudents_roster [" a ", "a"]).2.2.2.1 "a" (by decide)).1⟩

/-- C2: `addHistory` sets the log to the first 100 entries of the new record
followed by the old log. The new record carries the given name and mode and
is at the front, followed by the 99 newest old entries in their order; the log
has at most 100 entries afterwards and nothing else of `app` changes. -/
theorem addHistory_log (clock : Clock) (name : Option String) (mode : String) (s : Sys) :
    (addHistory clock name mode s).app.history
      = ((⟨name, mode, clock.time, clock.timestamp⟩ : HistoryRecord) :: s.app.history).take 100 ∧
    (addHistory clock name mode s).app.history
      = (⟨name, mode, clock.time, clock.timestamp⟩ : HistoryRecord) :: s.app.history.take 99 ∧
    (addHistory clock name mode s).app.history.length = min 100 (s.app.history.length + 1) ∧
    (addHistory clock name mode s).app.history.length ≤ 100 ∧
    (addHistory clock name mode s).app = { s.app with
      history := (addHistory clock name mode s).app.history } ∧
    (addHistory clock name mode s).tasks = s.tasks := by
  have key : (addHistory clock name mode s).app.history
      = ((⟨name, mode, clock.time, clock.timestamp⟩ : HistoryRecord) :: s.app.history).take 100 := by
    simp only [addHistory]
    split
    · rfl
    · rename_i h
      rw [List.take_of_length_le (by omega)]
  refine ⟨key, ?_, ?_, ?_, rfl, rfl⟩
  · rw [key]; rfl
  · rw [key, List.length_take, List.length_cons]
  · rw [key, List.length_take]
    exact Nat.min_le_left _ _

/-! ## Selection engine -/

theorem randomIndex_lt (r : Rand01) (n : Nat) (h : 0 < n) : randomIndex r n < n :=
  (drawIndex r n h).isLt

theorem get_cons_eraseIdx_perm {α : Type} (l : List α) (k : Nat) (h : k < l.length) :
    (l.get ⟨k, h⟩ :: l.eraseIdx k).Perm l := by
  induction l generalizing k with
  | nil => simp at h
  | cons a l ih =>
    cases k with
    | zero => simp
    | succ k =>
      simp only [List.length_cons, Nat.add_lt_add_iff_right] at h
      simp only [List.get_eq_getElem, List.getElem_cons_succ, List.eraseIdx_cons_succ]
      exact (List.Perm.swap a l[k] (l.eraseIdx k)).trans ((ih k h).cons a)

theorem selectLoop_perm {α : Type} (rnd : Nat → Rand01) (left i : Nat) (temp sel : List α) :
    ((selectLoop rnd left i temp sel).1 ++ (selectLoop rnd left i temp sel).2).Perm
      (sel ++ temp) := by
  induction left generalizing i temp sel with
  | zero => simp [selectLoop]
  | succ left ih =>
    unfold selectLoop
    split
    · rename_i h
      refine (ih _ _ _).trans ?_
      rw [List.append_assoc]
      exact (get_cons_eraseIdx_perm temp _ (randomIndex_lt _ _ h)).append_left sel
    · exact List.Perm.refl _

theorem selectLoop_length {α : Type} (rnd : Nat → Rand01) (left i : Nat) (temp sel : List α) :
    (selectLoop rnd left i temp sel).1.length = sel.length + min left temp.length := by
  induction left generalizing i temp sel with
  | zero => simp [selectLoop]
  | succ left ih =>
    unfold selectLoop
    split
    · rename_i h
      rw [ih, List.length_append, List.length_eraseIdx, if_pos (randomIndex_lt _ _ h)]
      simp only [List.length_singleton]
      omega
    · rename_i h
      have : temp.length = 0 := by omega
      simp [this]

/-- C3: on a roster (a list without repeated names, as `saveStudents` builds
it) and a count `k` with `1 ≤ k ≤ len(R)`, whatever the random numbers,
`selectMultipleStudents` returns exactly `k` names, pairwise distinct and all
members of the roster. -/
theorem selectMultipleStudents_distinct (rnd : Nat → Rand01) (R : List String) (k : Nat)
    (hR : R.Nodup) (_h1 : 1 ≤ k) (hk : k ≤ R.length) :
    (selectMultipleStudents rnd R k).length = k ∧
    (selectMultipleStudents rnd R k).Pairwise (fun a b => a ≠ b) ∧
    ∀ x ∈ selectMultipleStudents rnd R k, x ∈ R := by
  have hperm := selectLoop_perm rnd k 0 R []
  have hlen := selectLoop_length rnd k 0 R []
  simp only [List.nil_append] at hperm
  refine ⟨?_, ?_, ?_⟩
  · simp only [selectMultipleStudents, hlen, List.length_nil]
    omega
  · have hnd : ((selectLoop rnd k 0 R []).1 ++ (selectLoop rnd k 0 R []).2).Nodup :=
      hperm.nodup_iff.mpr hR
    exact (List.nodup_append.mp hnd).1
  · intro x hx
    exact hperm.subset (List.mem_append_left _ hx)

/-- C3, at the roster `A`, `B`, `C` with count 2 and every random number one half. -/
theorem selectMultipleStudents_distinct_witness :
    (selectMultipleStudents (fun _ => half) ["A", "B", "C"] 2).length = 2 ∧
    selectMultipleStudents (fun _ => half) ["A", "B", "C"] 2 = ["B", "C"] :=
  ⟨(selectMultipleStudents_distinct (fun _ => half) ["A", "B", "C"] 2
      (by decide) (by decide) (by decide)).1, by decide⟩

/-! ## History log -/

theorem addHistory_history (clock : Clock) (name : Option String) (mode : String) (s : Sys) :
    (addHistory clock name mode s).app.history
      = (⟨name, mode, clock.time, clock.timestamp⟩ : HistoryRecord) :: s.app.history.take 99 := by
  simp only [addHistory]
  split
  · rfl
  · rename_i h
    simp only [List.length_cons, gt_iff_lt, not_lt] at h
    rw [List.take_of_length_le (by omega)]

/-! ## Guards -/

/-- C4: with a count above the roster size the quick draw is refused. The
record `app` (history, roster, cursor, running flag and all other fields), the
registered callbacks, the display and the utterances are unchanged, so no name
is selected and no flash phase starts; on a non-empty roster that is not
running the notice names the insufficient roster. Example: the roster `A`, `B`
with count 3. -/
theorem startQuickDraw_insufficient (env : Env) (s : Sys)
    (h : s.app.students.length < env.quickCount) :
    (startQuickDraw env s).app = s.app ∧
    (startQuickDraw env s).tasks = s.tasks ∧
    (startQuickDraw env s).display = s.display ∧
    (startQuickDraw env s).spoken = s.spoken ∧
    (startQuickDraw env s).nextId = s.nextId ∧
    (s.app.students ≠ [] → s.app.isRunning = false →
      startQuickDraw env s
        = showToast ("学生总数不足 " ++ toString env.quickCount ++ " 人") s) := by
  unfold startQuickDraw
  by_cases h0 : s.app.students.length = 0
  · have hnil : s.app.students = [] := List.length_eq_zero.mp h0
    simp [hnil, toggleDrawer, showToast]
  · by_cases hr : s.app.isRunning = true
    · simp [h0, hr]
    · simp [h0, hr, h, showToast]

/-- C4, at the roster `A`, `B` with count 3. -/
theorem startQuickDraw_insufficient_witness :
    (startQuickDraw
      { studentInput := "", interval := 1, quickCount := 3,
        timerSelect := TimerSelect.preset 30, rnd := (fun _ => ⟨0, 53, by decide, by decide, by decide⟩),
        clock := { time := "", timestamp := 0 }, speechThrows := false, confirmed := false }
      { Sys.initial with app := { App.initial with students := ["A", "B"] } }).app
      = { App.initial with students := ["A", "B"] } :=
  (startQuickDraw_insufficient
    { studentInput := "", interval := 1, quickCount := 3,
      timerSelect := TimerSelect.preset 30, rnd := (fun _ => ⟨0, 53, by decide, by decide, by decide⟩),
      clock := { time := "", timestamp := 0 }, speechThrows := false, confirmed := false }
    { Sys.initial with app := { App.initial with students := ["A", "B"] } }
    (by decide)).1

/-! ## The single draw in double arithmetic -/

theorem excessBits_small (fuel a : Nat) (h : a < 2 ^ 53) : excessBits fuel a = 0 := by
  cases fuel with
  | zero => rfl
  | succ fuel => simp only [excessBits, if_pos h]

theorem roundToDouble_exact (a : Nat) (h : a < 2 ^ 53) : roundToDouble a = a := by
  simp [roundToDouble, excessBits_small a a h, Nat.mod_one]

theorem excessBits_spec (fuel a : Nat) (h : a < 2 ^ 53 * 2 ^ fuel) :
    a < 2 ^ 53 * 2 ^ excessBits fuel a ∧
    (excessBits fuel a = 0 ∨ 2 ^ 52 * 2 ^ excessBits fuel a ≤ a) := by
  induction fuel generalizing a with
  | zero => exact ⟨by simpa [excessBits] using h, Or.inl rfl⟩
  | succ fuel ih =>
    by_cases hsmall : a < 2 ^ 53
    · rw [excessBits_small _ a hsmall]
      exact ⟨by simpa using hsmall, Or.inl rfl⟩
    · have hhalf : a / 2 < 2 ^ 53 * 2 ^ fuel := by
        have hp : 2 ^ (fuel + 1) = 2 ^ fuel * 2 := Nat.pow_succ 2 fuel
        rw [hp] at h; omega
      have hunfold : excessBits (fuel + 1) a = excessBits fuel (a / 2) + 1 := by
        simp only [excessBits, if_neg hsmall]
      have hp : 2 ^ (excessBits fuel (a / 2) + 1) = 2 ^ excessBits fuel (a / 2) * 2 :=
        Nat.pow_succ 2 _
      rw [hunfold, hp]
      obtain ⟨h1, h2⟩ := ih (a / 2) hhalf
      refine ⟨by omega, Or.inr ?_⟩
      rcases h2 with h0 | hle
      · rw [h0]; omega
      · omega

/-- The rounded numerator lies between the two neighbours of `a` on the grid
of step `2 ^ excessBits a a`. -/
theorem roundToDouble_between (a : Nat) :
    a / 2 ^ excessBits a a * 2 ^ excessBits a a ≤ roundToDouble a ∧
    roundToDouble a ≤ (a / 2 ^ excessBits a a + 1) * 2 ^ excessBits a a := by
  simp only [roundToDouble]
  split
  · exact ⟨Nat.mul_le_mul_right _ (Nat.le_succ _), Nat.le_refl _⟩
  · exact ⟨Nat.le_refl _, Nat.mul_le_mul_right _ (Nat.le_succ _)⟩

/-- The index of the code is the integer part of the exact product or, when
the double product is rounded up to the next integer, that integer. -/
theorem randomIndex_floor (r : Rand01) (n : Nat) (hn : n < 2 ^ 53) :
    randomIndex r n = r.num * n / 2 ^ r.exp ∨
    randomIndex r n = r.num * n / 2 ^ r.exp + 1 := by
  have hfuel : r.num * n < 2 ^ 53 * 2 ^ (r.num * n) :=
    lt_of_lt_of_le (Nat.lt_two_pow _) (Nat.le_mul_of_pos_left _ (by positivity))
  obtain ⟨hupper, hlower⟩ := excessBits_spec (r.num * n) (r.num * n) hfuel
  rcases hlower with h0 | hle
  · left
    have hsmall : r.num * n < 2 ^ 53 := by simpa [h0] using hupper
    simp only [randomIndex, roundToDouble_exact _ hsmall]
  · -- the step of the grid divides `2 ^ exp`
    have hprod : r.num * n < 2 ^ 53 * 2 ^ 53 :=
      Nat.mul_lt_mul'' r.num_lt hn
    have hs : excessBits (r.num * n) (r.num * n) ≤ r.exp := by
      by_contra hgt
      have h54 : 54 ≤ excessBits (r.num * n) (r.num * n) := by
        have := r.exp_ge; omega
      have hpow : 2 ^ 54 ≤ 2 ^ excessBits (r.num * n) (r.num * n) :=
        Nat.pow_le_pow_right (by decide) h54
      have hbig : 2 ^ 52 * 2 ^ 54 ≤ r.num * n :=
        le_trans (Nat.mul_le_mul_left _ hpow) hle
      have h106 : (2 : Nat) ^ 52 * 2 ^ 54 = 2 ^ 53 * 2 ^ 53 := by decide
      omega
    obtain ⟨c, hc⟩ : ∃ c, 2 ^ r.exp = c * 2 ^ excessBits (r.num * n) (r.num * n) :=
      ⟨2 ^ (r.exp - excessBits (r.num * n) (r.num * n)), by
        rw [← Nat.pow_add, Nat.sub_add_cancel hs]⟩
    have htpos : 0 < 2 ^ excessBits (r.num * n) (r.num * n) := by positivity
    have hDpos : 0 < 2 ^ r.exp := by positivity
    obtain ⟨hlo, hhi⟩ := roundToDouble_between (r.num * n)
    -- the exact integer part, compared on the grid
    have he1 : r.num * n / 2 ^ r.exp * c ≤ r.num * n / 2 ^ excessBits (r.num * n) (r.num * n) := by
      rw [Nat.le_div_iff_mul_le htpos, Nat.mul_assoc, ← hc]
      exact Nat.div_mul_le_self _ _
    have he2 : r.num * n / 2 ^ excessBits (r.num * n) (r.num * n)
        < (r.num * n / 2 ^ r.exp + 1) * c := by
      rw [Nat.div_lt_iff_lt_mul htpos, Nat.mul_assoc, ← hc, ← Nat.div_lt_iff_lt_mul hDpos]
      exact Nat.lt_succ_self _
    have hge : r.num * n / 2 ^ r.exp ≤ randomIndex r n := by
      rw [randomIndex, Nat.le_div_iff_mul_le hDpos]
      have hgrid : r.num * n / 2 ^ r.exp * 2 ^ r.exp
          = r.num * n / 2 ^ r.exp * c * 2 ^ excessBits (r.num * n) (r.num * n) := by
        rw [Nat.mul_assoc, ← hc]
      rw [hgrid]
      exact le_trans (Nat.mul_le_mul_right _ he1) hlo
    have hlt : randomIndex r n < r.num * n / 2 ^ r.exp + 2 := by
      rw [randomIndex, Nat.div_lt_iff_lt_mul hDpos]
      have h1 : (r.num * n / 2 ^ excessBits (r.num * n) (r.num * n) + 1)
            * 2 ^ excessBits (r.num * n) (r.num * n)
          ≤ (r.num * n / 2 ^ r.exp + 1) * c * 2 ^ excessBits (r.num * n) (r.num * n) :=
        Nat.mul_le_mul_right _ he2
      rw [Nat.mul_assoc, ← hc] at h1
      have h2 : (r.num * n / 2 ^ r.exp + 1) * 2 ^ r.exp
          < (r.num * n / 2 ^ r.exp + 2) * 2 ^ r.exp :=
        Nat.mul_lt_mul_of_pos_right (by omega) hDpos
      exact lt_of_le_of_lt (le_trans hhi h1) h2
    omega

/-- C5: on a roster of length at least one, for every double `r` in `[0, 1)`,
the single draw of `startRandom` and `askQuestion` is the roster entry at the
index `Math.floor(r * len(R))`, the product being the double product of the
code. The index is below `len(R)`, so the drawn entry is a member of the
roster and never `undefined`; it is `floor(r * len(R))` of the exact product
when that product fits a double and otherwise this value or, when the double
product is rounded up to the next integer, one more. The record that the last
flash writes carries the drawn member. -/
theorem singleDraw_mem (R : List String) (r : Rand01) (h : 1 ≤ R.length) :
    randomIndex r R.length = roundToDouble (r.num * R.length) / 2 ^ r.exp ∧
    (r.num * R.length < 2 ^ 53 → randomIndex r R.length = r.num * R.length / 2 ^ r.exp) ∧
    (R.length < 2 ^ 53 →
      randomIndex r R.length = r.num * R.length / 2 ^ r.exp ∨
      randomIndex r R.length = r.num * R.length / 2 ^ r.exp + 1) ∧
    randomIndex r R.length < R.length ∧
    singleDraw r R = R[randomIndex r R.length]? ∧
    (∃ x ∈ R, singleDraw r R = some x) ∧
    (∀ (env : Env) (label : String) (c : Nat) (s : Sys),
      s.app.students = R → maxFlashes ≤ c + 1 →
      (flashTick env label c s).app.history.head?
        = some ⟨singleDraw (env.rnd 1) R, label, env.clock.time, env.clock.timestamp⟩ ∧
      ∃ x ∈ R, (flashTick env label c s).app.history.head?
        = some ⟨some x, label, env.clock.time, env.clock.timestamp⟩) := by
  have hlt : ∀ r : Rand01, randomIndex r R.length < R.length :=
    fun r => randomIndex_lt r R.length h
  have hdraw : ∀ r : Rand01, ∃ x ∈ R, singleDraw r R = some x := by
    intro r
    refine ⟨R.get ⟨randomIndex r R.length, hlt r⟩, List.get_mem _ _ _, ?_⟩
    simp [singleDraw, hlt r]
  refine ⟨rfl, ?_, randomIndex_floor r R.length, hlt r, rfl, hdraw r, ?_⟩
  · intro hsmall
    simp only [randomIndex, roundToDouble_exact _ hsmall]
  intro env label c s hs hc
  obtain ⟨x, hx, hxe⟩ := hdraw (env.rnd 1)
  have hhist : (flashTick env label c s).app.history
      = (addHistory env.clock (singleDraw (env.rnd 1) R) label s).app.history := by
    simp only [flashTick, hc, ge_iff_le, if_true, updateDisplay, hs]
    simp only [speak, showToast]
    split
    · rfl
    · split <;> rfl
  refine ⟨?_, x, hx, ?_⟩
  · rw [hhist, addHistory_history]
    rfl
  · rw [hhist, addHistory_history, hxe]
    rfl

/-- C5, at the roster `Amy`, `Bo`, `Cy`: the random value one half draws
`Bo`; for the double just below two thirds the double product is rounded up to
2, so the code draws `Cy` at index 2 while the exact product has integer
part 1. -/
theorem singleDraw_mem_witness :
    randomIndex half ["Amy", "Bo", "Cy"].length < 3 ∧
    singleDraw half ["Amy", "Bo", "Cy"] = some "Bo" ∧
    randomIndex belowTwoThirds 3 = 2 ∧
    belowTwoThirds.num * 3 / 2 ^ belowTwoThirds.exp = 1 ∧
    singleDraw belowTwoThirds ["Amy", "Bo", "Cy"] = some "Cy" :=
  ⟨(singleDraw_mem ["Amy", "Bo", "Cy"] half (by decide)).2.2.2.1, by decide, by decide,
   by decide, by decide⟩

/-! ## Flash cycles of `startRandom` and `askQuestion` -/

theorem fire_last (env : Env) (s : Sys) (pre : List Task) (t : Task)
    (h : s.tasks = pre ++ [t]) :
    fire env pre.length s = runTask env t { s with tasks := pre } := by
  unfold fire
  have hget : s.tasks[pre.length]? = some t := by
    rw [h]; simp
  have herase : s.tasks.eraseIdx pre.length = pre := by
    rw [h, List.eraseIdx_append_of_length_le (Nat.le_refl _)]
    simp
  rw [hget, herase]

theorem flashTick_early (env : Env) (label : String) (c : Nat) (s : Sys)
    (hc : c + 1 < maxFlashes) :
    flashTick env label c s
      = { s with
          display := (updateDisplay (singleDraw (env.rnd 0) s.app.students) s).display
          tasks := s.tasks ++ [Task.flash label (c + 1)] } := by
  have : ¬ (c + 1 ≥ maxFlashes) := by omega
  simp only [flashTick, this, if_false, updateDisplay]

theorem flashTick_final (env : Env) (label : String) (c : Nat) (s : Sys)
    (hc : maxFlashes ≤ c + 1) (hsp : s.app.speechEnabled = true)
    (hth : env.speechThrows = false) :
    flashTick env label c s
      = { s with
          app := { s.app with
            history := ⟨singleDraw (env.rnd 1) s.app.students, label, env.clock.time,
              env.clock.timestamp⟩ :: s.app.history.take 99 }
          display := (updateDisplay (singleDraw (env.rnd 1) s.app.students) s).display
          spoken := s.spoken ++ [nameText (singleDraw (env.rnd 1) s.app.students)]
          announced := s.announced ++ [nameText (singleDraw (env.rnd 1) s.app.students)]
          tasks := s.tasks ++ [Task.speechEnd SpeechCb.cycleDone] } := by
  have hh := addHistory_history env.clock (singleDraw (env.rnd 1) s.app.students) label
    (updateDisplay (singleDraw (env.rnd 1) s.app.students)
      (updateDisplay (singleDraw (env.rnd 0) s.app.students) s))
  simp only [flashTick, hc, ge_iff_le, if_true]
  simp only [speak, addHistory, updateDisplay, hsp, hth] at hh ⊢
  simp only [Bool.not_true, Bool.false_eq_true, if_false]
  rw [hh]

/-- The flashes before the last one: only the display text and the counter of
the interval callback change. -/
theorem fireAll_flash (envs : List Env) (label : String) (pre : List Task) (c : Nat) (s : Sys)
    (hs : s.tasks = pre ++ [Task.flash label c]) (hc : c + envs.length < maxFlashes) :
    (fireAll envs pre.length s).app = s.app ∧
    (fireAll envs pre.length s).tasks = pre ++ [Task.flash label (c + envs.length)] ∧
    (fireAll envs pre.length s).spoken = s.spoken ∧
    (fireAll envs pre.length s).toasts = s.toasts ∧
    (fireAll envs pre.length s).nextId = s.nextId ∧
    (fireAll envs pre.length s).drawerOpen = s.drawerOpen := by
  induction envs generalizing s c with
  | nil => simp [fireAll, hs]
  | cons env envs ih =>
    simp only [List.length_cons] at hc
    have hstep : fire env pre.length s
        = { s with
            display := (updateDisplay (singleDraw (env.rnd 0) s.app.students)
              { s with tasks := pre }).display
            tasks := pre ++ [Task.flash label (c + 1)] } := by
      rw [fire_last env s pre _ hs]
      simp only [runTask]
      rw [flashTick_early _ _ _ _ (by omega)]
    have := ih (c + 1) (fire env pre.length s) (by rw [hstep]) (by omega)
    simp only [fireAll, List.foldl_cons] at this ⊢
    rw [hstep] at this ⊢
    simpa [Nat.add_assoc, Nat.add_comm 1] using this

theorem startFlash_idle (label : String) (s : Sys) (hR : s.app.students ≠ [])
    (hrun : s.app.isRunning = false) :
    startFlash label s
      = { s with
          app := { s.app with isRunning := true }
          tasks := s.tasks ++ [Task.flash label 0] } := by
  have h0 : s.app.students.length ≠ 0 := fun h => hR (List.length_eq_zero.mp h)
  simp [startFlash, h0, hrun]

theorem fireAll_append (xs ys : List Env) (i : Nat) (s : Sys) :
    fireAll (xs ++ ys) i s = fireAll ys i (fireAll xs i s) := by
  simp [fireAll, List.foldl_append]

theorem fireAll_single (env : Env) (i : Nat) (s : Sys) : fireAll [env] i s = fire env i s := rfl

theorem take_history (r : HistoryRecord) (H : List HistoryRecord) :
    (r :: H).take 100 = r :: H.take 99 := rfl

/-- C6: from a state that is not running, with a non-empty roster and speech
enabled, `startRandom` followed by its 20 flashes and the speech-completion
callback adds exactly one record, at the front of the log (cut to 100): its
name is the roster member at the index of the final draw and its label is
`随机点名`. The first 19 flashes leave `app` as `startRandom` left it, so the
names that are only displayed add no record and `isRunning` is true; it is
still true after the 20th flash, which writes the record and registers the
callback, and false once the callback has run. -/
theorem startRandom_cycle (s : Sys) (ticks : List Env) (last done : Env)
    (hR : s.app.students ≠ []) (hrun : s.app.isRunning = false)
    (hsp : s.app.speechEnabled = true) (hth : last.speechThrows = false)
    (hlen : ticks.length = 19) :
    (∃ x ∈ s.app.students, singleDraw (last.rnd 1) s.app.students = some x ∧
      (fire done s.tasks.length
          (fireAll (ticks ++ [last]) s.tasks.length (startRandom s))).app
        = { s.app with
            history := ((⟨some x, "随机点名", last.clock.time, last.clock.timestamp⟩ :
              HistoryRecord) :: s.app.history).take 100 } ∧
      (fireAll (ticks ++ [last]) s.tasks.length (startRandom s)).app
        = { s.app with
            isRunning := true
            history := ((⟨some x, "随机点名", last.clock.time, last.clock.timestamp⟩ :
              HistoryRecord) :: s.app.history).take 100 }) ∧
    (fire done s.tasks.length
        (fireAll (ticks ++ [last]) s.tasks.length (startRandom s))).app.isRunning = false ∧
    (fire done s.tasks.length
        (fireAll (ticks ++ [last]) s.tasks.length (startRandom s))).tasks = s.tasks ∧
    (fireAll (ticks ++ [last]) s.tasks.length (startRandom s)).tasks
      = s.tasks ++ [Task.speechEnd SpeechCb.cycleDone] ∧
    (∀ n, n < 20 →
      (fireAll ((ticks ++ [last]).take n) s.tasks.length (startRandom s)).app
        = { s.app with isRunning := true }) := by
  have hstart := startFlash_idle "随机点名" s hR hrun
  have hpos : 1 ≤ s.app.students.length :=
    Nat.pos_of_ne_zero (fun h => hR (List.length_eq_zero.mp h))
  -- the flashes before the last one
  have hbefore : ∀ envs : List Env, envs.length < maxFlashes →
      (fireAll envs s.tasks.length (startRandom s)).app = { s.app with isRunning := true } ∧
      (fireAll envs s.tasks.length (startRandom s)).tasks
        = s.tasks ++ [Task.flash "随机点名" envs.length] := by
    intro envs hl
    have h := fireAll_flash envs "随机点名" s.tasks 0 (startRandom s)
      (by rw [startRandom, hstart]) (by omega)
    refine ⟨?_, ?_⟩
    · rw [h.1, startRandom, hstart]
    · rw [h.2.1, Nat.zero_add]
  obtain ⟨happ, htasks⟩ := hbefore ticks (by rw [hlen]; decide)
  -- the last flash
  have h20 : fireAll (ticks ++ [last]) s.tasks.length (startRandom s)
      = flashTick last "随机点名" 19
          { fireAll ticks s.tasks.length (startRandom s) with tasks := s.tasks } := by
    rw [fireAll_append, fireAll_single, fire_last last _ s.tasks _ htasks, hlen]
    rfl
  rw [flashTick_final _ _ _ _ (by decide) (by simp [happ, hsp]) hth] at h20
  have h20app : (fireAll (ticks ++ [last]) s.tasks.length (startRandom s)).app
      = { s.app with
          isRunning := true
          history := ((⟨singleDraw (last.rnd 1) s.app.students, "随机点名", last.clock.time,
            last.clock.timestamp⟩ : HistoryRecord) :: s.app.history).take 100 } := by
    rw [h20]
    simp only [happ, take_history]
  have h20tasks : (fireAll (ticks ++ [last]) s.tasks.length (startRandom s)).tasks
      = s.tasks ++ [Task.speechEnd SpeechCb.cycleDone] := by
    rw [h20]
  -- the speech-completion callback
  have hdone : fire done s.tasks.length
        (fireAll (ticks ++ [last]) s.tasks.length (startRandom s))
      = cycleDone { fireAll (ticks ++ [last]) s.tasks.length (startRandom s) with
          tasks := s.tasks } := by
    rw [fire_last done _ s.tasks _ h20tasks]
    rfl
  have hx : ∃ x ∈ s.app.students, singleDraw (last.rnd 1) s.app.students = some x := by
    refine ⟨s.app.students.get ⟨randomIndex (last.rnd 1) s.app.students.length,
      randomIndex_lt _ _ hpos⟩, List.get_mem _ _ _, ?_⟩
    simp [singleDraw, randomIndex_lt _ _ hpos]
  obtain ⟨x, hxmem, hxe⟩ := hx
  refine ⟨⟨x, hxmem, hxe, ?_, ?_⟩, ?_, ?_, h20tasks, ?_⟩
  · rw [hdone]
    simp only [cycleDone, h20app, hxe]
    rw [← hrun]
  · rw [h20app, hxe]
  · rw [hdone]
    rfl
  · rw [hdone]
    rfl
  · intro n hn
    have htake : (ticks ++ [last]).take n = ticks.take n := by
      rw [List.take_append_of_le_length (by omega)]
    rw [htake]
    exact (hbefore (ticks.take n) (by rw [List.length_take]; exact lt_of_le_of_lt (Nat.min_le_left _ _) hn)).1

set_option maxRecDepth 100000 in
/-- C6, at the roster `Amy`, `Bo`, `Cy` with every random value one half, so
that the final draw is `Bo`: one record for `Bo` and the flag back to false. -/
theorem startRandom_cycle_witness :
    (fire (envAt 3) 0
        (fireAll (List.replicate 19 (envAt 1) ++ [envAt 2]) 0 (startRandom classOfThree))).app.history
      = [⟨some "Bo", "随机点名", "", 2⟩] ∧
    (fire (envAt 3) 0
        (fireAll (List.replicate 19 (envAt 1) ++ [envAt 2]) 0
          (startRandom classOfThree))).app.isRunning = false :=
  ⟨by decide,
   (startRandom_cycle classOfThree (List.replicate 19 (envAt 1)) (envAt 2) (envAt 3)
      (by decide) (by decide) (by decide) (by decide) (by decide)).2.1⟩

set_option maxRecDepth 100000 in
/-- C7 fails on the code: with speech disabled the last flash of `startRandom`
records the name, but `speak` returns before it registers the completion
handler; after the 20th flash `isRunning` is still true and no callback is
left that could reset it, so the next `startRandom` is refused. The same
holds for `askQuestion`. -/
theorem startRandom_silent_stuck :
    (fireAll (List.replicate 20 (envAt 1)) 0
        (startRandom (toggleVoice classOfThree))).app.isRunning = true ∧
    (fireAll (List.replicate 20 (envAt 1)) 0 (startRandom (toggleVoice classOfThree))).tasks = [] ∧
    (fireAll (List.replicate 20 (envAt 1)) 0 (startRandom (toggleVoice classOfThree))).app.history
      = [⟨some "Bo", "随机点名", "", 1⟩] ∧
    startRandom (fireAll (List.replicate 20 (envAt 1)) 0 (startRandom (toggleVoice classOfThree)))
      = fireAll (List.replicate 20 (envAt 1)) 0 (startRandom (toggleVoice classOfThree)) ∧
    (fireAll (List.replicate 20 (envAt 1)) 0
        (askQuestion (toggleVoice classOfThree))).app.isRunning = true ∧
    (fireAll (List.replicate 20 (envAt 1)) 0 (askQuestion (toggleVoice classOfThree))).tasks
      = [] := by
  decide

/-! ## Guard failures -/

theorem startFlash_empty (label : String) (s : Sys) (h : s.app.students = []) :
    (startFlash label s).app = s.app ∧ (startFlash label s).tasks = s.tasks ∧
    (startFlash label s).nextId = s.nextId := by
  simp [startFlash, h, toggleDrawer, showToast]

theorem startFlash_running (label : String) (s : Sys) (h : s.app.isRunning = true) :
    (startFlash label s).app = s.app ∧ (startFlash label s).tasks = s.tasks ∧
    (startFlash label s).nextId = s.nextId := by
  unfold startFlash
  split
  · simp [toggleDrawer, showToast]
  · simp [h]

theorem startFlash_twice (label : String) (s : Sys) :
    (startFlash label (startFlash label s)).app = (startFlash label s).app ∧
    (startFlash label (startFlash label s)).tasks = (startFlash label s).tasks := by
  by_cases h0 : s.app.students = []
  · have h1 := startFlash_empty label s h0
    have h2 := startFlash_empty label (startFlash label s) (by rw [h1.1]; exact h0)
    exact ⟨h2.1, h2.2.1⟩
  · by_cases hr : s.app.isRunning = true
    · have h2 := startFlash_running label (startFlash label s)
        (by rw [(startFlash_running label s hr).1]; exact hr)
      exact ⟨h2.1, h2.2.1⟩
    · have h1 := startFlash_idle label s h0 (by simpa using hr)
      have h2 := startFlash_running label (startFlash label s) (by rw [h1])
      exact ⟨h2.1, h2.2.1⟩

theorem startQuickDraw_empty (env : Env) (s : Sys) (h : s.app.students = []) :
    (startQuickDraw env s).app = s.app ∧ (startQuickDraw env s).tasks = s.tasks ∧
    (startQuickDraw env s).nextId = s.nextId := by
  simp [startQuickDraw, h, toggleDrawer, showToast]

theorem startQuickDraw_running (env : Env) (s : Sys) (h : s.app.isRunning = true) :
    (startQuickDraw env s).app = s.app ∧ (startQuickDraw env s).tasks = s.tasks ∧
    (startQuickDraw env s).nextId = s.nextId := by
  unfold startQuickDraw
  split
  · simp [toggleDrawer, showToast]
  · simp [h]

theorem startQuickDraw_twice (env : Env) (s : Sys) :
    (startQuickDraw env (startQuickDraw env s)).app = (startQuickDraw env s).app ∧
    (startQuickDraw env (startQuickDraw env s)).tasks = (startQuickDraw env s).tasks := by
  by_cases h0 : s.app.students = []
  · have h1 := startQuickDraw_empty env s h0
    have h2 := startQuickDraw_empty env (startQuickDraw env s) (by rw [h1.1]; exact h0)
    exact ⟨h2.1, h2.2.1⟩
  · by_cases hr : s.app.isRunning = true
    · have h2 := startQuickDraw_running env (startQuickDraw env s)
        (by rw [(startQuickDraw_running env s hr).1]; exact hr)
      exact ⟨h2.1, h2.2.1⟩
    · have hlen : s.app.students.length ≠ 0 := fun h => h0 (List.length_eq_zero.mp h)
      by_cases hk : s.app.students.length < env.quickCount
      · have h1 : startQuickDraw env s
            = showToast ("学生总数不足 " ++ toString env.quickCount ++ " 人") s := by
          simp [startQuickDraw, hlen, hr, hk]
        rw [h1]
        simp [startQuickDraw, hlen, hr, hk, showToast]
      · have h1 : startQuickDraw env s
            = { s with
                app := { s.app with isRunning := true }
                tasks := s.tasks ++ [Task.flashQuick env.quickCount 0] } := by
          simp [startQuickDraw, hlen, hr, hk]
        have h2 := startQuickDraw_running env (startQuickDraw env s) (by rw [h1])
        exact ⟨h2.1, h2.2.1⟩

/-- C8: a guard failure is a no-op. With an empty roster `startSequence`,
`startRandom`, `askQuestion` and `startQuickDraw`, and with `isRunning` true
`startRandom`, `askQuestion` and `startQuickDraw`, leave the record `app`
(roster, history, weights, cursor, mode, flag, remaining time) and the
registered callbacks unchanged. Hence the second of two calls in immediate
succession changes neither, and two calls of `startRandom` from an idle state
with a roster register one flash phase and write no record. -/
theorem guard_noop (env : Env) (s : Sys) :
    (s.app.students = [] →
      ((startSequence env s).app = s.app ∧ (startSequence env s).tasks = s.tasks) ∧
      ((startRandom s).app = s.app ∧ (startRandom s).tasks = s.tasks) ∧
      ((askQuestion s).app = s.app ∧ (askQuestion s).tasks = s.tasks) ∧
      ((startQuickDraw env s).app = s.app ∧ (startQuickDraw env s).tasks = s.tasks)) ∧
    (s.app.isRunning = true →
      ((startRandom s).app = s.app ∧ (startRandom s).tasks = s.tasks) ∧
      ((askQuestion s).app = s.app ∧ (askQuestion s).tasks = s.tasks) ∧
      ((startQuickDraw env s).app = s.app ∧ (startQuickDraw env s).tasks = s.tasks)) ∧
    ((startRandom (startRandom s)).app = (startRandom s).app ∧
      (startRandom (startRandom s)).tasks = (startRandom s).tasks) ∧
    ((askQuestion (askQuestion s)).app = (askQuestion s).app ∧
      (askQuestion (askQuestion s)).tasks = (askQuestion s).tasks) ∧
    ((startQuickDraw env (startQuickDraw env s)).app = (startQuickDraw env s).app ∧
      (startQuickDraw env (startQuickDraw env s)).tasks = (startQuickDraw env s).tasks) ∧
    (s.app.students ≠ [] → s.app.isRunning = false →
      (startRandom (startRandom s)).tasks = s.tasks ++ [Task.flash "随机点名" 0] ∧
      (startRandom (startRandom s)).app.history = s.app.history) := by
  refine ⟨?_, ?_, startFlash_twice _ s, startFlash_twice _ s, startQuickDraw_twice env s, ?_⟩
  · intro h
    refine ⟨?_, ?_, ?_, ?_⟩
    · simp [startSequence, h, toggleDrawer, showToast]
    · exact ⟨(startFlash_empty _ s h).1, (startFlash_empty _ s h).2.1⟩
    · exact ⟨(startFlash_empty _ s h).1, (startFlash_empty _ s h).2.1⟩
    · exact ⟨(startQuickDraw_empty env s h).1, (startQuickDraw_empty env s h).2.1⟩
  · intro h
    refine ⟨?_, ?_, ?_⟩
    · exact ⟨(startFlash_running _ s h).1, (startFlash_running _ s h).2.1⟩
    · exact ⟨(startFlash_running _ s h).1, (startFlash_running _ s h).2.1⟩
    · exact ⟨(startQuickDraw_running env s h).1, (startQuickDraw_running env s h).2.1⟩
  · intro hR hrun
    have h1 := startFlash_idle "随机点名" s hR hrun
    have h2 := startFlash_twice "随机点名" s
    simp only [startRandom]
    rw [h2.2, h2.1, h1]
    exact ⟨rfl, rfl⟩

/-- C8, at the freshly loaded page (empty roster) and at the roster `Amy`,
`Bo`, `Cy`: the refused calls change nothing and two calls of `startRandom`
register one flash phase. -/
theorem guard_noop_witness :
    (startRandom Sys.initial).app = Sys.initial.app ∧
    (startRandom (startRandom classOfThree)).tasks = [Task.flash "随机点名" 0] :=
  ⟨((guard_noop (envAt 0) Sys.initial).1 rfl).2.1.1,
   ((guard_noop (envAt 0) classOfThree).2.2.2.2.2 (by decide) (by decide)).1⟩

/-! ## The running flag as a lock -/

set_option maxRecDepth 100000 in
/-- C9 fails on the code. In sequence mode, start, pause and start again
before the first announcement has ended leave two completion handlers
registered; when both have run, two `next` timeouts of sequence mode are
pending at once, the cursor has advanced twice, and when they fire the log
holds `Cy`, `Cy`, `Amy`, `Amy`: `Bo` is skipped. After the pause the flag is
false while a handler of the cycle is still registered. In the second trace
`pauseTimer`, reached through a mode change, clears the flag during the
flashes of a random call, and `startRandom` then starts a second flash phase
beside the first. -/
theorem running_flag_not_exclusive :
    (run doubleSequenceTrace Sys.initial).tasks = [Task.seqNext 1, Task.seqNext 1] ∧
    (run doubleSequenceTrace Sys.initial).app.isRunning = true ∧
    (run doubleSequenceTrace Sys.initial).app.currentIndex = some 2 ∧
    ((run (doubleSequenceTrace ++ [(envAt 6, Op.fire 0), (envAt 7, Op.fire 0)])
        Sys.initial).app.history.map (fun r => r.name))
      = [some "Cy", some "Cy", some "Amy", some "Amy"] ∧
    (run (doubleSequenceTrace.take 4) Sys.initial).app.isRunning = false ∧
    (run (doubleSequenceTrace.take 4) Sys.initial).tasks
      = [Task.speechEnd (SpeechCb.seqAdvance 1)] ∧
    (run doubleFlashTrace Sys.initial).tasks
      = [Task.flash "随机点名" 0, Task.flash "随机点名" 0] ∧
    (run doubleFlashTrace Sys.initial).app.isRunning = true := by
  decide

/-! ## Mode switch -/

set_option maxRecDepth 100000 in
/-- C10 fails as stated: during the flashes of a random call `isRunning` is
true and `switchMode` still replaces the mode. -/
theorem switchMode_while_running :
    (startRandom classOfThree).app.isRunning = true ∧
    (startRandom classOfThree).app.currentMode = Mode.question ∧
    (switchMode Mode.timer (startRandom classOfThree)).app.currentMode = Mode.timer ∧
    (switchMode Mode.timer (startRandom classOfThree)).app.currentMode
      ≠ (startRandom classOfThree).app.currentMode := by
  decide

/-- C10 as the code has it: `switchMode` sets the mode to `m` in every state,
running or not; nothing else of `app` (roster, history, cursor, flag) and no
registered callback changes; only the reset of the display text is limited to
states that are not running. -/
theorem switchMode_sets_mode (m : Mode) (s : Sys) :
    (switchMode m s).app = { s.app with currentMode := m } ∧
    (switchMode m s).app.currentMode = m ∧
    (switchMode m s).app.students = s.app.students ∧
    (switchMode m s).app.history = s.app.history ∧
    (switchMode m s).app.currentIndex = s.app.currentIndex ∧
    (switchMode m s).app.isRunning = s.app.isRunning ∧
    (switchMode m s).tasks = s.tasks ∧
    (switchMode m s).display = if s.app.isRunning then s.display else "准备开始" := by
  unfold switchMode
  cases hr : s.app.isRunning <;> simp [hr, updateDisplay]

/-! ## Manual cursor moves -/

theorem nextStudent_app (s : Sys) (c : Nat) (hc : s.app.currentIndex = some c)
    (hn : s.app.students.length ≠ 0) :
    (nextStudent s).app
      = { s.app with currentIndex := some ((c + 1) % s.app.students.length) } ∧
    (nextStudent s).tasks = s.tasks := by
  simp [nextStudent, hn, hc, jsMod, updateDisplay]

theorem prevStudent_app (s : Sys) (c : Nat) (hc : s.app.currentIndex = some c)
    (hn : s.app.students.length ≠ 0) :
    (prevStudent s).app
      = { s.app with
          currentIndex := some ((c + s.app.students.length - 1) % s.app.students.length) } ∧
    (prevStudent s).tasks = s.tasks := by
  simp [prevStudent, hn, hc, jsMod, updateDisplay]

theorem pred_succ_mod (c n : Nat) (h : c < n) : ((c + 1) % n + n - 1) % n = c := by
  by_cases hlast : c + 1 = n
  · have h0 : (c + 1) % n = 0 := by rw [hlast, Nat.mod_self]
    rw [h0, Nat.zero_add, Nat.mod_eq_of_lt (by omega)]
    omega
  · have h1 : (c + 1) % n = c + 1 := Nat.mod_eq_of_lt (by omega)
    have h2 : c + 1 + n - 1 = c + n := by omega
    rw [h1, h2, Nat.add_mod_right, Nat.mod_eq_of_lt h]

theorem succ_pred_mod (c n : Nat) (h : c < n) : ((c + n - 1) % n + 1) % n = c := by
  cases c with
  | zero =>
    have h1 : (0 + n - 1) % n = n - 1 := by
      rw [Nat.zero_add]
      exact Nat.mod_eq_of_lt (by omega)
    have h2 : n - 1 + 1 = n := by omega
    rw [h1, h2, Nat.mod_self]
  | succ c =>
    have h2 : c + 1 + n - 1 = c + n := by omega
    have h3 : c % n = c := Nat.mod_eq_of_lt (by omega)
    rw [h2, Nat.add_mod_right, h3, Nat.mod_eq_of_lt h]

/-- C12: with a non-empty roster of length `n` and a cursor `c < n`,
`nextStudent` sets the cursor to `(c + 1) mod n` and `prevStudent` to
`(c - 1 + n) mod n`; the new cursor is again below `n`, each undoes the other,
and nothing else of `app` (roster, history, weights, mode, running flag) and no
registered callback changes. With an empty roster both leave the whole state
unchanged. -/
theorem cursor_moves (s : Sys) :
    (∀ c : Nat, s.app.currentIndex = some c → c < s.app.students.length →
      (nextStudent s).app
        = { s.app with currentIndex := some ((c + 1) % s.app.students.length) } ∧
      (prevStudent s).app
        = { s.app with
            currentIndex := some ((c + s.app.students.length - 1) % s.app.students.length) } ∧
      (((c + s.app.students.length - 1) % s.app.students.length : Nat) : Int)
        = ((c : Int) - 1 + (s.app.students.length : Int)) % (s.app.students.length : Int) ∧
      (c + 1) % s.app.students.length < s.app.students.length ∧
      (c + s.app.students.length - 1) % s.app.students.length < s.app.students.length ∧
      (prevStudent (nextStudent s)).app = s.app ∧
      (nextStudent (prevStudent s)).app = s.app ∧
      (nextStudent s).tasks = s.tasks ∧ (prevStudent s).tasks = s.tasks) ∧
    (s.app.students = [] → nextStudent s = s ∧ prevStudent s = s) := by
  refine ⟨?_, ?_⟩
  · intro c hc hlt
    have hn : s.app.students.length ≠ 0 := by omega
    have hpos : 0 < s.app.students.length := by omega
    have hnext := nextStudent_app s c hc hn
    have hprev := prevStudent_app s c hc hn
    refine ⟨hnext.1, hprev.1, ?_, Nat.mod_lt _ hpos, Nat.mod_lt _ hpos, ?_, ?_, hnext.2, hprev.2⟩
    · have hcast : ((c + s.app.students.length - 1 : Nat) : Int)
          = (c : Int) - 1 + (s.app.students.length : Int) := by omega
      rw [← hcast]
      exact Int.natCast_mod _ _
    · have h2 := prevStudent_app (nextStudent s) ((c + 1) % s.app.students.length)
        (by rw [hnext.1]) (by rw [hnext.1]; exact hn)
      rw [h2.1, hnext.1]
      simp only [pred_succ_mod c _ hlt]
      rw [← hc]
    · have h2 := nextStudent_app (prevStudent s)
        ((c + s.app.students.length - 1) % s.app.students.length)
        (by rw [hprev.1]) (by rw [hprev.1]; exact hn)
      rw [h2.1, hprev.1]
      simp only [succ_pred_mod c _ hlt]
      rw [← hc]
  · intro h
    simp [nextStudent, prevStudent, h]

/-- C12, at the roster `Amy`, `Bo`, `Cy` with the cursor at 0, and at the
freshly loaded page with its empty roster. -/
theorem cursor_moves_witness :
    (nextStudent classOfThree).app.currentIndex = some 1 ∧
    (prevStudent classOfThree).app.currentIndex = some 2 ∧
    nextStudent Sys.initial = Sys.initial :=
  ⟨by rw [((cursor_moves classOfThree).1 0 (by decide) (by decide)).1]; decide,
   by rw [((cursor_moves classOfThree).1 0 (by decide) (by decide)).2.1]; decide,
   ((cursor_moves Sys.initial).2 rfl).1⟩

/-! ## Draw without replacement on any list -/

theorem selectLoop_rest_length {α : Type} (rnd : Nat → Rand01) (left i : Nat)
    (temp sel : List α) :
    (selectLoop rnd left i temp sel).2.length = temp.length - min left temp.length := by
  have h1 := (selectLoop_perm rnd left i temp sel).length_eq
  have h2 := selectLoop_length rnd left i temp sel
  simp only [List.length_append] at h1
  omega

/-- C16: on every candidate list, repeated values allowed, for every count
and every sequence of random numbers, `selectMultipleStudents` (a total
function) returns `min(k, len(C))` values; the result followed by the
candidates that were not drawn is a permutation of the candidate list, so the
values are taken at distinct positions. The roster passed in by the quick draw
is left as it was. -/
theorem selectMultipleStudents_submultiset {α : Type} (rnd : Nat → Rand01) (C : List α)
    (k : Nat) :
    (selectMultipleStudents rnd C k).length = min k C.length ∧
    (selectMultipleStudents rnd C k ++ (selectLoop rnd k 0 C []).2).Perm C ∧
    (selectLoop rnd k 0 C []).2.length = C.length - min k C.length ∧
    (selectMultipleStudents rnd C k).Subperm C ∧
    (∀ (env : Env) (count c : Nat) (s : Sys),
      (quickFlashTick env count c s).app = s.app) := by
  have hperm := selectLoop_perm rnd k 0 C []
  simp only [List.nil_append] at hperm
  refine ⟨?_, hperm, selectLoop_rest_length rnd k 0 C [], ?_, ?_⟩
  · simp [selectMultipleStudents, selectLoop_length]
  · exact (List.sublist_append_left _ _).subperm.trans hperm.subperm
  · intro env count c s
    simp only [quickFlashTick, updateDisplay]
    split <;> rfl

/-! ## Timer -/

theorem speak_app (env : Env) (text : String) (cb : Option SpeechCb) (s : Sys) :
    (speak env text cb s).app = s.app := by
  simp only [speak, showToast]
  split
  · rfl
  · split <;> rfl

theorem speak_none_tasks (env : Env) (text : String) (s : Sys) :
    (speak env text none s).tasks = s.tasks := by
  simp only [speak, showToast]
  split
  · rfl
  · split <;> rfl

theorem speak_nextId (env : Env) (text : String) (cb : Option SpeechCb) (s : Sys) :
    (speak env text cb s).nextId = s.nextId := by
  simp only [speak, showToast]
  split
  · rfl
  · split <;> rfl

theorem speak_announced (env : Env) (text : String) (cb : Option SpeechCb) (s : Sys) :
    (speak env text cb s).announced = s.announced ++ [text] := by
  simp only [speak, showToast]
  split
  · rfl
  · split <;> rfl

theorem toString_minutes (v : Nat) : toString ((v : Int) / 60) = toString (v / 60) := by
  have : ((v : Int) / 60) = ((v / 60 : Nat) : Int) := by omega
  rw [this]
  rfl

/-- One run of `updateTimer` on a positive remaining time. -/
theorem updateTimer_step (env : Env) (t : Sys) (r : Nat)
    (hrun : t.app.isRunning = true) (hrem : t.app.remainingTime = ((r + 1 : Nat) : Int)) :
    (updateTimer env t).app
      = { t.app with remainingTime := (r : Int), timerId := some t.nextId } ∧
    (updateTimer env t).tasks = t.tasks ++ [Task.timerTick t.nextId] ∧
    (updateTimer env t).nextId = t.nextId + 1 ∧
    (updateTimer env t).announced
      = t.announced ++ (if t.app.speechEnabled = true then minuteTexts (r + 1) 1 else []) := by
  have hpos : t.app.remainingTime > 0 := by rw [hrem]; omega
  have hnot : ¬ t.app.remainingTime ≤ 0 := by omega
  have hsub : t.app.remainingTime - 1 = (r : Int) := by rw [hrem]; omega
  have hmod : t.app.remainingTime % 60 = 0 ↔ (r + 1) % 60 = 0 := by rw [hrem]; omega
  have hmin : toString (t.app.remainingTime / 60) = toString ((r + 1) / 60) := by
    rw [hrem]; exact toString_minutes (r + 1)
  by_cases hsay : t.app.remainingTime % 60 = 0 ∧ t.app.speechEnabled = true
  · have hcond : t.app.remainingTime > 0 ∧ t.app.remainingTime % 60 = 0 ∧
        t.app.speechEnabled = true := ⟨hpos, hsay.1, hsay.2⟩
    have h60 : (r + 1) % 60 = 0 := hmod.mp hsay.1
    have htexts : minuteTexts (r + 1) 1 = [toString ((r + 1) / 60) ++ "分钟剩余"] := by
      simp [minuteTexts, countdownValues, h60]
    refine ⟨?_, ?_, ?_, ?_⟩
    · simp only [updateTimer, hrun, Bool.not_true, Bool.false_eq_true, if_false, hcond,
        and_self, if_true, speak_app, hnot, hsub, speak_nextId]
    · simp only [updateTimer, hrun, Bool.not_true, Bool.false_eq_true, if_false, hcond,
        and_self, if_true, speak_app, hnot, speak_none_tasks, speak_nextId]
    · simp only [updateTimer, hrun, Bool.not_true, Bool.false_eq_true, if_false, hcond,
        and_self, if_true, speak_app, hnot, speak_nextId]
    · simp only [updateTimer, hrun, Bool.not_true, Bool.false_eq_true, if_false, hcond,
        and_self, if_true, speak_app, hnot, speak_announced, hsay.2, htexts, hmin]
  · have hcond : ¬ (t.app.remainingTime > 0 ∧ t.app.remainingTime % 60 = 0 ∧
        t.app.speechEnabled = true) := fun h => hsay ⟨h.2.1, h.2.2⟩
    have htexts : (if t.app.speechEnabled = true then minuteTexts (r + 1) 1 else [])
        = ([] : List String) := by
      by_cases hen : t.app.speechEnabled = true
      · have h60 : ¬ (r + 1) % 60 = 0 := fun h => hsay ⟨hmod.mpr h, hen⟩
        simp [minuteTexts, countdownValues, h60, hen]
      · simp [hen]
    refine ⟨?_, ?_, ?_, ?_⟩
    · simp only [updateTimer, hrun, Bool.not_true, Bool.false_eq_true, if_false, hcond, hnot,
        hsub]
    · simp only [updateTimer, hrun, Bool.not_true, Bool.false_eq_true, if_false, hcond, hnot]
    · simp only [updateTimer, hrun, Bool.not_true, Bool.false_eq_true, if_false, hcond, hnot]
    · simp only [updateTimer, hrun, Bool.not_true, Bool.false_eq_true, if_false, hcond, hnot,
        htexts, List.append_nil]

/-- The run of `updateTimer` that finds the remaining time at zero. -/
theorem updateTimer_final (env : Env) (t : Sys) (id : Nat)
    (hrun : t.app.isRunning = true) (hrem : t.app.remainingTime = 0)
    (hid : t.app.timerId = some id) :
    (updateTimer env t).app = { t.app with isRunning := false, timerId := none } ∧
    (updateTimer env t).tasks = t.tasks.filter (fun x => decide (x ≠ Task.timerTick id)) ∧
    (updateTimer env t).nextId = t.nextId ∧
    (updateTimer env t).announced = t.announced ++ ["时间到！"] := by
  have hcond : ¬ (t.app.remainingTime > 0 ∧ t.app.remainingTime % 60 = 0 ∧
      t.app.speechEnabled = true) := by rw [hrem]; simp
  have hle : t.app.remainingTime ≤ 0 := by rw [hrem]
  refine ⟨?_, ?_, ?_, ?_⟩
  · simp only [updateTimer, hrun, Bool.not_true, Bool.false_eq_true, if_false, hcond, hle,
      if_true, pauseTimer, speak_app, hid, updateDisplay]
  · simp only [updateTimer, hrun, Bool.not_true, Bool.false_eq_true, if_false, hcond, hle,
      if_true, pauseTimer, speak_app, hid, updateDisplay, speak_none_tasks]
  · simp only [updateTimer, hrun, Bool.not_true, Bool.false_eq_true, if_false, hcond, hle,
      if_true, pauseTimer, speak_app, hid, updateDisplay, speak_nextId]
  · simp only [updateTimer, hrun, Bool.not_true, Bool.false_eq_true, if_false, hcond, hle,
      if_true, pauseTimer, speak_app, hid, updateDisplay, speak_announced]

theorem minuteTexts_cons (r n : Nat) :
    minuteTexts (r + 1) (n + 1) = minuteTexts (r + 1) 1 ++ minuteTexts r n := by
  simp only [minuteTexts, countdownValues, Nat.add_sub_cancel, List.filter_cons, List.filter_nil]
  split <;> simp

theorem minuteTexts_zero (n : Nat) : minuteTexts 0 n = [] := by
  induction n with
  | zero => rfl
  | succ n ih =>
    simp only [minuteTexts, countdownValues, List.filter_cons] at ih ⊢
    simpa using ih

theorem countdownValues_all (d : Nat) :
    countdownValues d (d + 1) = (List.range (d + 1)).reverse := by
  induction d with
  | zero => rfl
  | succ d ih =>
    rw [List.range_succ (n := d + 1), List.reverse_append]
    simp only [countdownValues, Nat.add_sub_cancel, List.reverse_cons, List.reverse_nil,
      List.nil_append, List.singleton_append, List.cons.injEq, true_and]
    exact ih

theorem minuteTexts_ne_done (r n : Nat) : ∀ t ∈ minuteTexts r n, t ≠ "时间到！" := by
  intro t ht heq
  simp only [minuteTexts, List.mem_map] at ht
  obtain ⟨v, _, hv⟩ := ht
  have hdata := congrArg String.data (hv.trans heq)
  have hlast := congrArg List.getLast? hdata
  have h1 : "分钟剩余".data.getLast? = some '余' := by decide
  have h2 : "时间到！".data.getLast? = some '！' := by decide
  rw [String.data_append, List.getLast?_append, h1, h2] at hlast
  simp at hlast

/-- The ticks of a running countdown that do not reach zero. -/
theorem countdown_ticks (envs : List Env) (pre : List Task) (T : Sys) (r : Nat)
    (hrun : T.app.isRunning = true) (hrem : T.app.remainingTime = (r : Int))
    (htasks : T.tasks = pre ++ [Task.timerTick (T.nextId - 1)])
    (hid : T.app.timerId = some (T.nextId - 1)) (hlen : envs.length ≤ r) :
    (fireAll envs pre.length T).app
      = { T.app with
          remainingTime := ((r - envs.length : Nat) : Int)
          timerId := some (T.nextId + envs.length - 1) } ∧
    (fireAll envs pre.length T).nextId = T.nextId + envs.length ∧
    (fireAll envs pre.length T).tasks = pre ++ [Task.timerTick (T.nextId + envs.length - 1)] ∧
    (fireAll envs pre.length T).announced
      = T.announced ++ (if T.app.speechEnabled = true then minuteTexts r envs.length else []) := by
  induction envs generalizing T r with
  | nil =>
    refine ⟨?_, rfl, htasks, ?_⟩
    · simp only [fireAll, List.foldl_nil, List.length_nil, Nat.sub_zero, Nat.add_zero, ← hrem,
        ← hid]
    · simp [fireAll, minuteTexts, countdownValues]
  | cons e es ih =>
    simp only [List.length_cons] at hlen
    obtain ⟨r', rfl⟩ : ∃ r', r = r' + 1 := ⟨r - 1, by omega⟩
    have hfire : fire e pre.length T = updateTimer e { T with tasks := pre } := by
      rw [fire_last e T pre _ htasks]
      rfl
    have hstep := updateTimer_step e { T with tasks := pre } r' hrun hrem
    rw [← hfire] at hstep
    dsimp only at hstep
    obtain ⟨happ, htk, hnid, hann⟩ := hstep
    have hih := ih (fire e pre.length T) r' (by rw [happ]; exact hrun) (by rw [happ])
      (by rw [htk, hnid]; rfl) (by rw [happ, hnid]; rfl) (by omega)
    have hfold : fireAll (e :: es) pre.length T = fireAll es pre.length (fire e pre.length T) :=
      rfl
    rw [hfold]
    obtain ⟨h1, h2, h3, h4⟩ := hih
    have hidx : T.nextId + 1 + es.length - 1 = T.nextId + (es.length + 1) - 1 := by omega
    refine ⟨?_, ?_, ?_, ?_⟩
    · rw [h1, happ, hnid]
      simp only [List.length_cons, Nat.add_sub_add_right, hidx]
    · rw [h2, hnid, List.length_cons]
      omega
    · rw [h3, hnid, List.length_cons, hidx]
    · rw [h4, hann, happ, List.length_cons, minuteTexts_cons r' es.length]
      by_cases hen : T.app.speechEnabled = true <;> simp [hen]

theorem minuteTexts_full (r : Nat) : minuteTexts r (r + 1) = minuteTexts r r := by
  induction r with
  | zero => rw [minuteTexts_zero, minuteTexts_zero]
  | succ r ih => rw [minuteTexts_cons r (r + 1), minuteTexts_cons r r, ih]

theorem filter_fresh_ticks (tasks : List Task) (id bound : Nat)
    (hfresh : ∀ i, Task.timerTick i ∈ tasks → i < bound) (hid : bound ≤ id) :
    tasks.filter (fun x => decide (x ≠ Task.timerTick id)) = tasks := by
  rw [List.filter_eq_self]
  intro x hx
  simp only [ne_eq, decide_not, Bool.not_eq_true', decide_eq_false_iff_not]
  intro heq
  have := hfresh id (heq ▸ hx)
  omega

/-- C13: `startTimer` with a duration `d ≥ 1`, followed by its ticks without
interruption, ends after `d + 1` runs of `updateTimer` (one in `startTimer`,
one per tick, each tick registered with a delay of 1000 ms). After the run
number `j + 1` with `j < d` the remaining time is `d - 1 - j` and the next tick
is registered; the run that finds the remaining time at 0 calls
`speak('时间到！')` once and leaves `isRunning` false, `timerId` null and no tick
registered. With speech enabled the minute announcement is made exactly for
the values `r` with `0 < r ≤ d` and `r mod 60 = 0`, in decreasing order, and
with speech disabled for none. -/
theorem timer_countdown (env : Env) (s : Sys) (d : Nat) (ticks : List Env) (last : Env)
    (hd : 1 ≤ d)
    (hsel : env.timerSelect = TimerSelect.preset (d : Int) ∨
      env.timerSelect = TimerSelect.custom (some (d : Int)))
    (hfresh : ∀ id, Task.timerTick id ∈ s.tasks → id < s.nextId)
    (hlen : ticks.length + 1 = d) :
    (∀ j, j < d →
      (fireAll (ticks.take j) s.tasks.length (startTimer env s)).app
        = { s.app with
            isRunning := true
            remainingTime := ((d - 1 - j : Nat) : Int)
            timerId := some (s.nextId + j) } ∧
      (fireAll (ticks.take j) s.tasks.length (startTimer env s)).tasks
        = s.tasks ++ [Task.timerTick (s.nextId + j)] ∧
      (Task.timerTick (s.nextId + j)).delay = some 1000) ∧
    (fireAll (ticks ++ [last]) s.tasks.length (startTimer env s)).app
      = { s.app with isRunning := false, remainingTime := 0, timerId := none } ∧
    (fireAll (ticks ++ [last]) s.tasks.length (startTimer env s)).tasks = s.tasks ∧
    (fireAll (ticks ++ [last]) s.tasks.length (startTimer env s)).nextId = s.nextId + d ∧
    (fireAll (ticks ++ [last]) s.tasks.length (startTimer env s)).announced
      = s.announced
        ++ (if s.app.speechEnabled = true then minuteTexts d (d + 1) else [])
        ++ ["时间到！"] ∧
    countdownValues d (d + 1) = (List.range (d + 1)).reverse ∧
    (∀ t ∈ minuteTexts d (d + 1), t ≠ "时间到！") := by
  obtain ⟨r, rfl⟩ : ∃ r, d = r + 1 := ⟨d - 1, by omega⟩
  have hr : ticks.length = r := by omega
  -- the run inside `startTimer`
  have hstart : startTimer env s
      = updateTimer env { s with app := { s.app with
          remainingTime := ((r + 1 : Nat) : Int), isRunning := true } } := by
    rcases hsel with h | h
    · simp only [startTimer, h]
    · have hne : ¬ (((r + 1 : Nat) : Int) = 0 ∨ ((r + 1 : Nat) : Int) < 1) := by omega
      simp only [startTimer, h, hne, if_false]
  have h0 := updateTimer_step env { s with app := { s.app with
      remainingTime := ((r + 1 : Nat) : Int), isRunning := true } } r rfl rfl
  rw [← hstart] at h0
  dsimp only at h0
  obtain ⟨happ0, htk0, hnid0, hann0⟩ := h0
  -- the ticks that do not reach zero
  have hrun : ∀ envs : List Env, envs.length ≤ r →
      (fireAll envs s.tasks.length (startTimer env s)).app
        = { s.app with
            isRunning := true
            remainingTime := ((r - envs.length : Nat) : Int)
            timerId := some (s.nextId + envs.length) } ∧
      (fireAll envs s.tasks.length (startTimer env s)).nextId = s.nextId + 1 + envs.length ∧
      (fireAll envs s.tasks.length (startTimer env s)).tasks
        = s.tasks ++ [Task.timerTick (s.nextId + envs.length)] ∧
      (fireAll envs s.tasks.length (startTimer env s)).announced
        = s.announced ++ (if s.app.speechEnabled = true then minuteTexts (r + 1) 1 else [])
          ++ (if s.app.speechEnabled = true then minuteTexts r envs.length else []) := by
    intro envs hle
    have h := countdown_ticks envs s.tasks (startTimer env s) r (by rw [happ0])
      (by rw [happ0]) (by rw [htk0, hnid0]; rfl) (by rw [happ0, hnid0]; rfl) hle
    obtain ⟨h1, h2, h3, h4⟩ := h
    have hidx : s.nextId + 1 + envs.length - 1 = s.nextId + envs.length := by omega
    refine ⟨?_, ?_, ?_, ?_⟩
    · rw [h1, happ0, hnid0, hidx]
    · rw [h2, hnid0]
    · rw [h3, hnid0, hidx]
    · rw [h4, hann0, happ0]
  refine ⟨?_, ?_, ?_, ?_, ?_, countdownValues_all _, minuteTexts_ne_done _ _⟩
  · intro j hj
    have hlj : (ticks.take j).length = j := by
      rw [List.length_take]; omega
    have h := hrun (ticks.take j) (by omega)
    rw [hlj] at h
    refine ⟨?_, h.2.2.1, rfl⟩
    rw [h.1]
    simp only [Nat.add_sub_cancel]
  all_goals
    obtain ⟨ha, hn, ht, hann⟩ := hrun ticks (by omega)
    rw [hr] at ha hn ht hann
    have hfire : fireAll (ticks ++ [last]) s.tasks.length (startTimer env s)
        = updateTimer last
            { fireAll ticks s.tasks.length (startTimer env s) with tasks := s.tasks } := by
      rw [fireAll_append, fireAll_single, fire_last last _ s.tasks _ ht]
      rfl
    have hfin := updateTimer_final last
      { fireAll ticks s.tasks.length (startTimer env s) with tasks := s.tasks } (s.nextId + r)
      (by rw [ha]) (by rw [ha]; simp) (by rw [ha])
    rw [← hfire] at hfin
    dsimp only at hfin
    obtain ⟨hfa, hft, hfn, hfann⟩ := hfin
  · rw [hfa, ha]
    simp
  · rw [hft]
    exact filter_fresh_ticks s.tasks _ s.nextId hfresh (by omega)
  · rw [hfn, hn]
    omega
  · rw [hfann, hann, minuteTexts_cons r (r + 1), minuteTexts_full]
    by_cases hen : s.app.speechEnabled = true <;> simp [hen]

set_option maxRecDepth 100000 in
/-- C13, at a countdown of 60 seconds started on the page with the roster
`Amy`, `Bo`, `Cy`: after the 60 ticks the flag is false, no handle is stored,
and the calls of `speak` were the one-minute announcement and the final one. -/
theorem timer_countdown_witness :
    (fireAll (List.replicate 59 (envAt 1) ++ [envAt 2]) 0
        (startTimer { envAt 0 with timerSelect := TimerSelect.preset 60 } classOfThree)).app.isRunning
      = false ∧
    (fireAll (List.replicate 59 (envAt 1) ++ [envAt 2]) 0
        (startTimer { envAt 0 with timerSelect := TimerSelect.preset 60 } classOfThree)).app.timerId
      = none ∧
    (fireAll (List.replicate 59 (envAt 1) ++ [envAt 2]) 0
        (startTimer { envAt 0 with timerSelect := TimerSelect.preset 60 } classOfThree)).announced
      = ["1分钟剩余", "时间到！"] :=
  ⟨congrArg App.isRunning
    (timer_countdown { envAt 0 with timerSelect := TimerSelect.preset 60 } classOfThree 60
      (List.replicate 59 (envAt 1)) (envAt 2) (by decide) (Or.inl rfl)
      (fun _ h => (List.not_mem_nil _ h).elim) (by decide)).2.1,
   by decide, by decide⟩

/-! ## Quick draw -/

theorem fire_at (env : Env) (s : Sys) (pre post : List Task) (t : Task)
    (h : s.tasks = pre ++ t :: post) :
    fire env pre.length s = runTask env t { s with tasks := pre ++ post } := by
  unfold fire
  have hget : s.tasks[pre.length]? = some t := by
    rw [h, List.getElem?_append_right (Nat.le_refl _), Nat.sub_self]
    simp
  have herase : s.tasks.eraseIdx pre.length = pre ++ post := by
    rw [h, List.eraseIdx_append_of_length_le (Nat.le_refl _)]
    simp
  rw [hget, herase]

theorem quickFlashTick_early (env : Env) (count c : Nat) (s : Sys) (hc : c + 1 < maxFlashes) :
    (quickFlashTick env count c s).app = s.app ∧
    (quickFlashTick env count c s).tasks = s.tasks ++ [Task.flashQuick count (c + 1)] := by
  have : ¬ (c + 1 ≥ maxFlashes) := by omega
  constructor <;> simp only [quickFlashTick, this, if_false, updateDisplay]

theorem quickFlashTick_final (env : Env) (count c : Nat) (s : Sys) (hc : maxFlashes ≤ c + 1) :
    (quickFlashTick env count c s).app = s.app ∧
    (quickFlashTick env count c s).tasks
      = s.tasks ++ quickRecordTasks (finalSelection env count s.app.students) := by
  constructor <;>
    simp only [quickFlashTick, hc, ge_iff_le, if_true, updateDisplay, finalSelection]

/-- The flashes of a quick draw before the last one. -/
theorem fireAll_flashQuick (envs : List Env) (count : Nat) (pre : List Task) (c : Nat) (s : Sys)
    (hs : s.tasks = pre ++ [Task.flashQuick count c]) (hc : c + envs.length < maxFlashes) :
    (fireAll envs pre.length s).app = s.app ∧
    (fireAll envs pre.length s).tasks = pre ++ [Task.flashQuick count (c + envs.length)] := by
  induction envs generalizing s c with
  | nil => simp [fireAll, hs]
  | cons env envs ih =>
    simp only [List.length_cons] at hc
    have hfire : fire env pre.length s = quickFlashTick env count c { s with tasks := pre } := by
      rw [fire_last env s pre _ hs]
      rfl
    have hstep := quickFlashTick_early env count c { s with tasks := pre } (by omega)
    rw [← hfire] at hstep
    have h := ih (c + 1) (fire env pre.length s) hstep.2 (by omega)
    have hfold : fireAll (env :: envs) pre.length s
        = fireAll envs pre.length (fire env pre.length s) := rfl
    rw [hfold, h.1, h.2, hstep.1]
    refine ⟨rfl, ?_⟩
    rw [List.length_cons, Nat.add_assoc, Nat.add_comm 1]

theorem quickRecord_effect (env : Env) (name : String) (index len : Nat) (s : Sys) :
    (quickRecord env name index len s).app
      = { s.app with history :=
          ((⟨some name, "快速连抽", env.clock.time, env.clock.timestamp⟩ : HistoryRecord)
            :: s.app.history).take 100 } ∧
    (quickRecord env name index len s).tasks
      = s.tasks ++ (if index = len - 1 then [Task.quickFinish] else []) := by
  have hh := addHistory_history env.clock (some name) "快速连抽" s
  have ha : (addHistory env.clock (some name) "快速连抽" s).app
      = { s.app with history := (addHistory env.clock (some name) "快速连抽" s).app.history } :=
    rfl
  have ht : (addHistory env.clock (some name) "快速连抽" s).tasks = s.tasks := rfl
  unfold quickRecord
  by_cases hi : index = len - 1
  · simp only [hi, if_true, speak_app, speak_none_tasks]
    rw [ha, hh, ht]
    exact ⟨rfl, rfl⟩
  · simp only [hi, if_false, speak_app, speak_none_tasks, List.append_nil]
    rw [ha, hh, ht]
    exact ⟨rfl, rfl⟩

theorem take_append_take {α : Type} (n : Nat) (A B : List α) :
    (A ++ B.take n).take n = (A ++ B).take n := by
  rw [List.take_append_eq_append_take, List.take_append_eq_append_take, List.take_take]
  congr 1
  rw [Nat.min_eq_left (Nat.sub_le _ _)]

theorem logAfter_eq (rs : List HistoryRecord) (H : List HistoryRecord) (h : rs ≠ []) :
    logAfter rs H = (rs.reverse ++ H).take 100 := by
  induction rs generalizing H with
  | nil => exact absurd rfl h
  | cons r rs ih =>
    by_cases hrs : rs = []
    · subst hrs
      rfl
    · have := ih ((r :: H).take 100) hrs
      simp only [logAfter, List.foldl_cons] at this ⊢
      rw [this, take_append_take]
      simp

/-- The record callbacks of a quick draw fire in the order of their delays. -/
theorem fireAll_records (envs : List Env) (pre : List Task) (names : List String) (i len : Nat)
    (T : Sys)
    (hT : T.tasks
      = pre ++ (names.enumFrom i).map (fun p => Task.quickRecord p.2 p.1 len))
    (hlen : envs.length ≤ names.length) (hi : i + names.length = len) :
    (fireAll envs pre.length T).app
      = { T.app with history := logAfter (quickRecords names envs) T.app.history } ∧
    (fireAll envs pre.length T).tasks
      = pre ++ ((names.drop envs.length).enumFrom (i + envs.length)).map
            (fun p => Task.quickRecord p.2 p.1 len)
          ++ (if envs.length = names.length ∧ names ≠ [] then [Task.quickFinish] else []) := by
  induction envs generalizing names i T with
  | nil =>
    refine ⟨?_, ?_⟩
    · simp [fireAll, quickRecords, logAfter]
    · cases names <;> simp [fireAll, hT]
  | cons e es ih =>
    cases names with
    | nil => simp at hlen
    | cons n ns =>
      simp only [List.length_cons, Nat.add_le_add_iff_right] at hlen
      simp only [List.length_cons] at hi
      have hfold : fireAll (e :: es) pre.length T
          = fireAll es pre.length (fire e pre.length T) := rfl
      obtain ⟨rest, hrest⟩ : ∃ rest : List Task,
          rest = (ns.enumFrom (i + 1)).map (fun p => Task.quickRecord p.2 p.1 len) := ⟨_, rfl⟩
      have hT2 : T.tasks = pre ++ Task.quickRecord n i len :: rest := by
        rw [hT, hrest]
        rfl
      have hfire : fire e pre.length T
          = quickRecord e n i len { T with tasks := pre ++ rest } := by
        rw [fire_at e T pre _ _ hT2]
        rfl
      have heff := quickRecord_effect e n i len { T with tasks := pre ++ rest }
      rw [← hfire] at heff
      dsimp only at heff
      obtain ⟨happ, htk⟩ := heff
      by_cases hns : ns = []
      · subst hns
        have hes : es = [] := List.length_eq_zero.mp (by simpa using hlen)
        subst hes
        have hlast : i = len - 1 := by simp at hi; omega
        rw [hfold]
        refine ⟨?_, ?_⟩
        · simp only [fireAll, List.foldl_nil, happ]
          rfl
        · simp [fireAll, htk, hlast, hrest]
      · have hpos : 0 < ns.length := List.length_pos.mpr hns
        have hnot : ¬ i = len - 1 := by omega
        rw [if_neg hnot, List.append_nil, hrest] at htk
        have h := ih ns (i + 1) (fire e pre.length T) htk hlen (by omega)
        rw [hfold, h.1, h.2, happ]
        refine ⟨rfl, ?_⟩
        simp only [List.length_cons, List.drop_succ_cons, Nat.add_right_cancel_iff, hns,
          ne_eq, not_false_eq_true, and_true, reduceCtorEq]
        rw [Nat.add_assoc, Nat.add_comm 1]

theorem quickRecords_names (names : List String) (envs : List Env)
    (h : envs.length = names.length) :
    (quickRecords names envs).map (fun r => r.name) = names.map some ∧
    (∀ r ∈ quickRecords names envs, r.mode = "快速连抽") ∧
    (quickRecords names envs).length = names.length := by
  induction names generalizing envs with
  | nil => simp [quickRecords]
  | cons n ns ih =>
    cases envs with
    | nil => simp at h
    | cons e es =>
      have := ih es (by simpa using h)
      simp only [quickRecords, List.zipWith_cons_cons, List.map_cons, List.mem_cons,
        List.length_cons] at this ⊢
      refine ⟨by rw [this.1], ?_, by rw [this.2.2]⟩
      rintro r (rfl | hr)
      · rfl
      · exact this.2.1 r hr

theorem quickRecordTasks_delay (names : List String) :
    (quickRecordTasks names).map Task.delay
      = (List.range names.length).map (fun j => some (j * 800)) := by
  have h : (quickRecordTasks names).map Task.delay
      = (names.enum.map Prod.fst).map (fun j => some (j * 800)) := by
    simp only [quickRecordTasks, List.map_map]
    rfl
  rw [h, List.enum_map_fst]

theorem startQuickDraw_idle (env : Env) (s : Sys) (hk1 : 1 ≤ env.quickCount)
    (hk : env.quickCount ≤ s.app.students.length) (hrun : s.app.isRunning = false) :
    startQuickDraw env s
      = { s with
          app := { s.app with isRunning := true }
          tasks := s.tasks ++ [Task.flashQuick env.quickCount 0] } := by
  have h0 : s.app.students.length ≠ 0 := by omega
  have hlt : ¬ s.app.students.length < env.quickCount := by omega
  simp [startQuickDraw, h0, hrun, hlt]

/-- C14: from a state that is not running, with `1 ≤ k ≤ len(R)`,
`startQuickDraw` followed by its 20 flashes, the `k` record callbacks in the
order of their delays and the closing callback behaves as follows. The first
19 flashes leave `app` as `startQuickDraw` left it; the 20th makes the one
call of `selectMultipleStudents`, which yields `k` names, and registers one
record callback per name with delay `i * 800` ms. The callback `i` adds the
record of the name `i` with label `快速连抽`; after all of them the log is the
`k` records in reverse draw order followed by the old log, cut to 100, and the
closing callback is registered with delay 1000 ms. `isRunning` is true from
the call until the closing callback, which sets it to false. -/
theorem quickDraw_cycle (env : Env) (s : Sys) (ticks : List Env) (last : Env)
    (recs : List Env) (fin : Env)
    (hk1 : 1 ≤ env.quickCount) (hk : env.quickCount ≤ s.app.students.length)
    (hrun : s.app.isRunning = false)
    (hticks : ticks.length = 19) (hrecs : recs.length = env.quickCount) :
    (finalSelection last env.quickCount s.app.students).length = env.quickCount ∧
    (∀ n, n < 20 →
      (fireAll ((ticks ++ [last]).take n) s.tasks.length (startQuickDraw env s)).app
        = { s.app with isRunning := true }) ∧
    (afterQuickFlashes env ticks last s).app = { s.app with isRunning := true } ∧
    (afterQuickFlashes env ticks last s).tasks
      = s.tasks ++ quickRecordTasks (finalSelection last env.quickCount s.app.students) ∧
    (quickRecordTasks (finalSelection last env.quickCount s.app.students)).map Task.delay
      = (List.range env.quickCount).map (fun i => some (i * 800)) ∧
    (∀ j, j ≤ env.quickCount →
      (fireAll (recs.take j) s.tasks.length (afterQuickFlashes env ticks last s)).app
        = { s.app with
            isRunning := true
            history := logAfter
              (quickRecords (finalSelection last env.quickCount s.app.students) (recs.take j))
              s.app.history }) ∧
    (fireAll recs s.tasks.length (afterQuickFlashes env ticks last s)).tasks
      = s.tasks ++ [Task.quickFinish] ∧
    Task.quickFinish.delay = some 1000 ∧
    (fire fin s.tasks.length
        (fireAll recs s.tasks.length (afterQuickFlashes env ticks last s))).app
      = { s.app with
          history :=
            ((quickRecords (finalSelection last env.quickCount s.app.students) recs).reverse
              ++ s.app.history).take 100 } ∧
    (fire fin s.tasks.length
        (fireAll recs s.tasks.length (afterQuickFlashes env ticks last s))).app.isRunning
      = false ∧
    (fire fin s.tasks.length
        (fireAll recs s.tasks.length (afterQuickFlashes env ticks last s))).tasks = s.tasks ∧
    (quickRecords (finalSelection last env.quickCount s.app.students) recs).map (fun r => r.name)
      = (finalSelection last env.quickCount s.app.students).map some ∧
    (∀ r ∈ quickRecords (finalSelection last env.quickCount s.app.students) recs,
      r.mode = "快速连抽") ∧
    (quickRecords (finalSelection last env.quickCount s.app.students) recs).length
      = env.quickCount := by
  have hstart := startQuickDraw_idle env s hk1 hk hrun
  -- the selection
  have hsel : (finalSelection last env.quickCount s.app.students).length = env.quickCount := by
    simp only [finalSelection, selectMultipleStudents, selectLoop_length, List.length_nil]
    omega
  -- the flashes before the last one
  have hbefore : ∀ envs : List Env, envs.length < maxFlashes →
      (fireAll envs s.tasks.length (startQuickDraw env s)).app = { s.app with isRunning := true } ∧
      (fireAll envs s.tasks.length (startQuickDraw env s)).tasks
        = s.tasks ++ [Task.flashQuick env.quickCount envs.length] := by
    intro envs hl
    have h := fireAll_flashQuick envs env.quickCount s.tasks 0 (startQuickDraw env s)
      (by rw [hstart]) (by omega)
    refine ⟨?_, ?_⟩
    · rw [h.1, hstart]
    · rw [h.2, Nat.zero_add]
  obtain ⟨happ19, htasks19⟩ := hbefore ticks (by rw [hticks]; decide)
  -- the last flash
  have h20 : afterQuickFlashes env ticks last s
      = quickFlashTick last env.quickCount 19
          { fireAll ticks s.tasks.length (startQuickDraw env s) with tasks := s.tasks } := by
    rw [afterQuickFlashes, fireAll_append, fireAll_single, fire_last last _ s.tasks _ htasks19,
      hticks]
    rfl
  have hfinal := quickFlashTick_final last env.quickCount 19
    { fireAll ticks s.tasks.length (startQuickDraw env s) with tasks := s.tasks } (by decide)
  rw [← h20] at hfinal
  dsimp only at hfinal
  rw [happ19] at hfinal
  obtain ⟨happ20, htasks20⟩ := hfinal
  dsimp only at htasks20
  -- the record callbacks
  have hrec : ∀ envs : List Env, envs.length ≤ env.quickCount →
      (fireAll envs s.tasks.length (afterQuickFlashes env ticks last s)).app
        = { s.app with
            isRunning := true
            history := logAfter
              (quickRecords (finalSelection last env.quickCount s.app.students) envs)
              s.app.history } ∧
      (envs.length = env.quickCount →
        (fireAll envs s.tasks.length (afterQuickFlashes env ticks last s)).tasks
          = s.tasks ++ [Task.quickFinish]) := by
    intro envs hle
    have h := fireAll_records envs s.tasks
      (finalSelection last env.quickCount s.app.students) 0
      (finalSelection last env.quickCount s.app.students).length
      (afterQuickFlashes env ticks last s) (by rw [htasks20]; rfl) (by omega) (by omega)
    refine ⟨?_, ?_⟩
    · rw [h.1, happ20]
    · intro hfull
      have hne : finalSelection last env.quickCount s.app.students ≠ [] := by
        intro h0
        rw [h0] at hsel
        simp at hsel
        omega
      have hfull2 : envs.length
          = (finalSelection last env.quickCount s.app.students).length := by
        rw [hfull, hsel]
      rw [h.2, hfull2, List.drop_length]
      simp [hne]
  have hall := hrec recs (by omega)
  have htasksAll := hall.2 hrecs
  have hdone : fire fin s.tasks.length
        (fireAll recs s.tasks.length (afterQuickFlashes env ticks last s))
      = quickFinish { fireAll recs s.tasks.length (afterQuickFlashes env ticks last s) with
          tasks := s.tasks } := by
    rw [fire_last fin _ s.tasks _ htasksAll]
    rfl
  have hnames := quickRecords_names (finalSelection last env.quickCount s.app.students) recs
    (by omega)
  have hne : quickRecords (finalSelection last env.quickCount s.app.students) recs ≠ [] := by
    intro h0
    have := hnames.2.2
    rw [h0, hsel] at this
    simp at this
    omega
  refine ⟨hsel, ?_, happ20, htasks20, ?_, ?_, htasksAll, rfl, ?_, ?_, ?_, hnames.1, hnames.2.1,
    by rw [hnames.2.2, hsel]⟩
  · intro n hn
    have htake : (ticks ++ [last]).take n = ticks.take n := by
      rw [List.take_append_of_le_length (by omega)]
    rw [htake]
    exact (hbefore (ticks.take n)
      (by rw [List.length_take]; exact lt_of_le_of_lt (Nat.min_le_left _ _) hn)).1
  · rw [quickRecordTasks_delay, hsel]
  · intro j hj
    exact (hrec (recs.take j) (by rw [List.length_take]; omega)).1
  · rw [hdone]
    simp only [quickFinish, hall.1, logAfter_eq _ _ hne]
    rw [← hrun]
  · rw [hdone]
    rfl
  · rw [hdone]
    rfl

set_option maxRecDepth 100000 in
/-- C14, at the roster `Amy`, `Bo`, `Cy` with count 3 and every random value
one half: the draw is `Bo`, `Cy`, `Amy`, the log ends as `Amy`, `Cy`, `Bo`
and the flag is false after the closing callback. -/
theorem quickDraw_cycle_witness :
    finalSelection (envAt 2) 3 ["Amy", "Bo", "Cy"] = ["Bo", "Cy", "Amy"] ∧
    (fire (envAt 6) 0
        (fireAll [envAt 3, envAt 4, envAt 5] 0
          (afterQuickFlashes (envAt 0) (List.replicate 19 (envAt 1)) (envAt 2)
            classOfThree))).app.history
      = [⟨some "Amy", "快速连抽", "", 5⟩, ⟨some "Cy", "快速连抽", "", 4⟩,
         ⟨some "Bo", "快速连抽", "", 3⟩] ∧
    (fire (envAt 6) 0
        (fireAll [envAt 3, envAt 4, envAt 5] 0
          (afterQuickFlashes (envAt 0) (List.replicate 19 (envAt 1)) (envAt 2)
            classOfThree))).app.isRunning = false :=
  ⟨by decide, by decide,
   (quickDraw_cycle (envAt 0) classOfThree (List.replicate 19 (envAt 1)) (envAt 2)
      [envAt 3, envAt 4, envAt 5] (envAt 6) (by decide) (by decide) (by decide) (by decide)
      (by decide)).2.2.2.2.2.2.2.2.2.1⟩

/-! ## Round-robin order and the cursor -/

set_option maxRecDepth 100000 in
/-- C11 fails on the code. Without interruption, from cursor 0 over `Amy`,
`Bo`, `Cy`, sequence mode records `Amy`, `Bo`, `Cy`, `Amy`, and so it does
when each resume comes after the pending callback of the paused cycle has run.
But when sequence mode is paused and resumed while the first announcement is
still spoken, `Amy` is recorded twice, both completion handlers advance the
cursor, and the names that follow are `Cy`, `Cy`: `Amy` is repeated and `Bo`
is skipped. -/
theorem sequence_order_broken_by_resume :
    recordedNames (run plainSequenceTrace Sys.initial)
      = [some "Amy", some "Bo", some "Cy", some "Amy"] ∧
    recordedNames (run pausedSequenceTrace Sys.initial)
      = [some "Amy", some "Bo", some "Cy"] ∧
    recordedNames (run (racedSequenceTrace.take 5) Sys.initial) = [some "Amy", some "Amy"] ∧
    (run (racedSequenceTrace.take 5) Sys.initial).app.currentIndex = some 0 ∧
    (run (racedSequenceTrace.take 7) Sys.initial).app.currentIndex = some 2 ∧
    recordedNames (run racedSequenceTrace Sys.initial)
      = [some "Amy", some "Amy", some "Cy", some "Cy"] := by
  decide

set_option maxRecDepth 100000 in
/-- C15 fails on the code. `saveStudents` replaces the roster and keeps the
cursor: after the cursor was moved to 2, saving a roster of one name leaves
the cursor at 2, and `startSequence` then looks up `students[2]`, records
`undefined` as the name and passes `undefined` to `speak`. When the roster is cleared
during an announcement, the completion handler computes a remainder by 0, the
cursor becomes `NaN` and stays so after the next `saveStudents` and
`nextStudent`. -/
theorem cursor_out_of_range :
    (run (shorterRosterTrace.take 4) Sys.initial).app.students = ["Amy"] ∧
    (run (shorterRosterTrace.take 4) Sys.initial).app.currentIndex = some 2 ∧
    studentAt (run (shorterRosterTrace.take 4) Sys.initial).app.students
      (run (shorterRosterTrace.take 4) Sys.initial).app.currentIndex = none ∧
    recordedNames (run shorterRosterTrace Sys.initial) = [none] ∧
    (run shorterRosterTrace Sys.initial).announced = ["undefined"] ∧
    (run (clearedRosterTrace.take 4) Sys.initial).app.currentIndex = none ∧
    (run clearedRosterTrace Sys.initial).app.students = ["Amy", "Bo", "Cy"] ∧
    (run clearedRosterTrace Sys.initial).app.currentIndex = none := by
  decide

end RollCall
